import Mathlib

/-!
# mlog: rotating file writer and level-gated dispatch

A shallow embedding of `mlog.go` (package `mlog`): the `RotatingFileHandler`
(`NewRotatingFileHandler`, `Write`, `Close`, `doRollover`), the start-up routine
`doLogging` with its wrappers `Start` / `StartEx`, `Stop`, `Sync`, and the logging
calls `Trace`, `Info`, `Warning`, `Error`, `IfError`, `Fatal`, `Fatalf`,
`FatalIfError`.

The operating system is modelled by a flat file system (a map from path names to
byte contents) together with a schedule of injected I/O failures; the Go standard
library calls the package makes (`os.File`, `os.Rename`, `os.OpenFile`,
`log.Logger.Output`, `fmt.Println`) are modelled after their documented
behaviour.  Stateful code is written in explicit state-passing style.
-/

namespace Mlog

/-! ## The operating system -/

/-- Contents of a file, and the argument of a `Write` call: a Go `[]byte`. -/
abbrev Bytes := List UInt8

/-- Errors returned by the `os` package that the model distinguishes. -/
inductive OsError
  | ErrInvalid   -- method called on a nil `*os.File`
  | ErrClosed    -- method called on a file that is already closed
  | ENOENT       -- no such file
  | EFAIL          -- an injected failure of the underlying system call
  deriving DecidableEq, Repr

/-- The file system and the schedule of injected failures.  `files p` is the content
of the file at path `p`, if there is one.  Each call of `os.Rename` and `os.OpenFile`
consumes the head of `faults`; `true` makes that call fail without effect.  An
exhausted schedule injects nothing. -/
structure World where
  files : String → Option Bytes
  faults : List Bool

/-- Take the next entry of the fault schedule. -/
def World.nextFault (w : World) : Bool × World :=
  match w.faults with
  | [] => (false, w)
  | b :: rest => (b, { w with faults := rest })

/-- Model of `os.Rename(src, dst)`: fails when the call is hit by an injected failure
or when `src` does not exist; otherwise `dst` is replaced by `src` and `src` is gone. -/
def osRename (src dst : String) (w : World) : Option OsError × World :=
  let (fault, w1) := w.nextFault
  if fault then (some OsError.EFAIL, w1)
  else
    match w1.files src with
    | none => (some OsError.ENOENT, w1)
    | some c =>
      (none, { w1 with files := fun p => if p = dst then some c
                                         else if p = src then none else w1.files p })

/-- An `*os.File` that is not nil.  The handler only ever opens `fileName`, so the
handle is keyed by that path; `closed` records that `Close` was called on it. -/
structure File where
  closed : Bool
  deriving DecidableEq, Repr

/-- Model of `os.OpenFile(name, os.O_CREATE|os.O_WRONLY|os.O_APPEND, 0666)`: creates
the file empty when it does not exist and returns an open handle; `none` is the nil
handle returned together with an error. -/
def osOpenFile (name : String) (w : World) : Option File × World :=
  let (fault, w1) := w.nextFault
  if fault then (none, w1)
  else
    match w1.files name with
    | some _ => (some { closed := false }, w1)
    | none =>
      (some { closed := false },
       { w1 with files := fun p => if p = name then some [] else w1.files p })

/-- Model of `dir := path.Dir(fileName); os.Mkdir(dir, 0777)`, whose result the source
ignores.  Directories are not part of the flat file system; a missing directory
shows as a failure of `os.OpenFile`. -/
def mkdirOf (_fileName : String) (w : World) : World := w

/-- Model of `(*os.File).Stat` followed by `Size()`: the size in bytes of the file the
handle refers to.  A nil handle gives `ErrInvalid`, a closed one `ErrClosed`. -/
def fdStat (fd : Option File) (name : String) (w : World) : Except OsError Int :=
  match fd with
  | none => .error OsError.ErrInvalid
  | some f =>
    if f.closed then .error OsError.ErrClosed
    else
      match w.files name with
      | none => .error OsError.ENOENT
      | some c => .ok (c.length : Int)

/-- Model of `(*os.File).Write` on a handle opened with `O_APPEND`: appends `p` and
returns its length.  A nil handle gives `ErrInvalid`, a closed one `ErrClosed`. -/
def fdWrite (fd : Option File) (name : String) (p : Bytes) (w : World) :
    Except OsError Nat × World :=
  match fd with
  | none => (.error OsError.ErrInvalid, w)
  | some f =>
    if f.closed then (.error OsError.ErrClosed, w)
    else
      match w.files name with
      | none => (.error OsError.ENOENT, w)
      | some c =>
        (.ok p.length,
         { w with files := fun q => if q = name then some (c ++ p) else w.files q })

/-- Model of `(*os.File).Close`: "Close will return an error if it has already been
called"; a nil handle gives `ErrInvalid`. -/
def fdClose (fd : Option File) : Option OsError × Option File :=
  match fd with
  | none => (some OsError.ErrInvalid, none)
  | some f =>
    if f.closed then (some OsError.ErrClosed, some f)
    else (none, some { closed := true })

/-- Model of `(*os.File).Sync`. -/
def fdSync (fd : Option File) : Option OsError :=
  match fd with
  | none => some OsError.ErrInvalid
  | some f => if f.closed then some OsError.ErrClosed else none

/-! ## RotatingFileHandler -/

/-- The struct `RotatingFileHandler`; `fd = none` is the nil pointer. -/
structure RotatingFileHandler where
  fd : Option File
  fileName : String
  maxBytes : Int
  rotateCount : Int

/-- The name `fmt.Sprintf("%s.%d", fileName, i)` of the `i`-th backup. -/
def backupName (fileName : String) (i : Nat) : String :=
  fileName ++ "." ++ toString i

/-- The loop `for i := k; i > 0; i-- { os.Rename(fileName.i, fileName.(i+1)) }` of
`doRollover`, started at `i = k`. -/
def shiftBackups (fileName : String) : Nat → World → World
  | 0, w => w
  | i + 1, w =>
    shiftBackups fileName i
      (osRename (backupName fileName (i + 1)) (backupName fileName (i + 2)) w).2

/-- The method `doRollover`. -/
def doRollover (h : RotatingFileHandler) (w : World) : RotatingFileHandler × World :=
  match fdStat h.fd h.fileName w with
  | .error _ => (h, w)
  | .ok size =>
    if h.maxBytes ≤ 0 then (h, w)
    else if size < h.maxBytes then (h, w)
    else if h.rotateCount > 0 then
      let h1 := { h with fd := (fdClose h.fd).2 }
      let w1 := shiftBackups h1.fileName (h1.rotateCount - 1).toNat w
      let w2 := (osRename h1.fileName (backupName h1.fileName 1) w1).2
      let (fd, w3) := osOpenFile h1.fileName w2
      ({ h1 with fd := fd }, w3)
    else (h, w)

/-- The method `Write`: roll over if due, then write to the handle. -/
def Write (h : RotatingFileHandler) (p : Bytes) (w : World) :
    Except OsError Nat × RotatingFileHandler × World :=
  let (h1, w1) := doRollover h w
  let (r, w2) := fdWrite h1.fd h1.fileName p w1
  (r, h1, w2)

/-- The method `Close`: the handle is closed but `h.fd` is left pointing at it. -/
def Close (h : RotatingFileHandler) : Option OsError × RotatingFileHandler :=
  match h.fd with
  | some _ =>
    let (err, fd) := fdClose h.fd
    (err, { h with fd := fd })
  | none => (none, h)

/-- The function `NewRotatingFileHandler`; an error is returned as its message. -/
def NewRotatingFileHandler (fileName : String) (maxBytes rotateCount : Int) (w : World) :
    Except String RotatingFileHandler × World :=
  let w0 := mkdirOf fileName w
  if maxBytes ≤ 0 then (.error "invalid max bytes", w0)
  else
    match osOpenFile fileName w0 with
    | (some f, w1) =>
      (.ok { fd := some f, fileName := fileName, maxBytes := maxBytes,
             rotateCount := rotateCount }, w1)
    | (none, w1) => (.error ("open " ++ fileName ++ ": input/output error"), w1)

/-! ## Formatting and the `log` package -/

/-- An operand of a formatting call (a Go `interface{}`), as far as the model
distinguishes operands: a string, an int, a non-nil `error` made by `errors.New`
with the given message, or the nil interface value. -/
inductive Value
  | str (s : String)
  | int (i : Int)
  | err (msg : String)
  | nil
  deriving DecidableEq, Repr

/-- The part of the standard library the package calls and whose results it only
passes on: `fmt.Sprintf`, `fmt.Sprint`, and the date, time and `file:line: ` header
that a `log.Logger` with `DefaultFlags` puts in front of a message (`header n` is
the header of a line logged after `n` earlier events). -/
structure Env where
  Sprintf : String → List Value → String
  Sprint : List Value → String
  header : Nat → String

/-- Model of `fmt.Println` applied to strings: the operands separated by single
spaces, followed by a newline. -/
def Println : List String → String
  | [] => "\n"
  | [a] => a ++ "\n"
  | a :: b :: rest => a ++ " " ++ Println (b :: rest)

/-- The UTF-8 bytes of a string, as handed to `io.Writer.Write`. -/
def toBytes (s : String) : Bytes := s.data.flatMap String.utf8EncodeChar

/-- The `io.Writer` values that `doLogging` hands to `log.New`: `ioutil.Discard`,
`os.Stdout`, `os.Stderr`, and the `*RotatingFileHandler` held in `Logger.LogFile`. -/
inductive Writer
  | Discard
  | Stdout
  | Stderr
  | fileHandle
  deriving DecidableEq, Repr

/-- A `*log.Logger` made by `log.New(out, pfx, flag)`. -/
structure GoLogger where
  out : Writer
  pfx : String
  flag : Nat
  deriving DecidableEq, Repr

/-- The line a `log.Logger` builds in `Output(calldepth, s)`: the logger tag, the
header, the message, and a newline unless the message already ends in one. -/
def formatLine (l : GoLogger) (hdr s : String) : String :=
  l.pfx ++ hdr ++ s ++ (if s.data.getLast? = some (Char.ofNat 10) then "" else "\n")

/-! ## The package state and the process -/

/-- Values of the type `LogLevel` (an `int32`). -/
abbrev LogLevel := Int

/-- The constant `LevelTrace = 1 << 0`. -/
def LevelTrace : LogLevel := 1
/-- The constant `LevelInfo = 1 << 1`. -/
def LevelInfo : LogLevel := 2
/-- The constant `LevelWarn = 1 << 2`. -/
def LevelWarn : LogLevel := 4
/-- The constant `LevelError = 1 << 3`. -/
def LevelError : LogLevel := 8

/-- The constant `MaxBytes`. -/
def MaxBytes : Int := 10 * 1024 * 1024
/-- The constant `RotateCount`. -/
def RotateCount : Int := 10

/-- The variable `DefaultFlags = log.Ldate | log.Ltime | log.Lshortfile`. -/
def DefaultFlags : Nat := 1 ||| 2 ||| 16

/-- The struct `mlog`; a logger that is `none` is a nil `*log.Logger`, as in the
zero value of the package variable `Logger` before `Start`. -/
structure mlog where
  LogLevel : Int
  Trace : Option GoLogger
  Info : Option GoLogger
  Warning : Option GoLogger
  Error : Option GoLogger
  Fatal : Option GoLogger
  LogFile : Option RotatingFileHandler

/-- What the process does that is visible from outside, in order. -/
inductive Event
  | stdout (s : String)        -- bytes written to `os.Stdout`
  | stderr (s : String)        -- bytes written to `os.Stderr`
  | fileWrite (p : Bytes)      -- a call of `RotatingFileHandler.Write`
  | sync (err : Option OsError) -- a call of `Sync` on the log file handle, and its result
  | exit (code : Nat)          -- `os.Exit(code)`
  | panic                      -- a run-time panic (nil pointer dereference)
  deriving DecidableEq, Repr

/-- The state of the process: the package variable `Logger`, the file system, the
events so far (oldest first), and the exit code once the process has terminated. -/
structure Proc where
  Logger : mlog
  world : World
  trace : List Event
  exit : Option Nat

/-- The zero value of the package variable `Logger`. -/
def mlog.zero : mlog :=
  { LogLevel := 0, Trace := none, Info := none, Warning := none, Error := none,
    Fatal := none, LogFile := none }

/-- A process that has not called the package yet. -/
def Proc.init (w : World) : Proc :=
  { Logger := mlog.zero, world := w, trace := [], exit := none }

/-- Record an event. -/
def Proc.emit (s : Proc) (e : Event) : Proc := { s with trace := s.trace ++ [e] }

/-- Model of `os.Exit(code)`. -/
def osExit (code : Nat) (s : Proc) : Proc :=
  { s.emit (Event.exit code) with exit := some code }

/-- A run-time panic that nobody recovers: the process dies with exit code 2. -/
def goPanic (s : Proc) : Proc := { s.emit Event.panic with exit := some 2 }

/-- Sequencing of statements: nothing runs once the process has terminated. -/
def Proc.andThen (s : Proc) (f : Proc → Proc) : Proc :=
  if s.exit.isSome then s else f s

/-- A `Write` call on an `io.Writer`.  Writing to the file writer runs
`RotatingFileHandler.Write` on `Logger.LogFile`; its result is ignored by `log`. -/
def Writer.write (out : Writer) (line : String) (s : Proc) : Proc :=
  match out with
  | Writer.Discard => s
  | Writer.Stdout => s.emit (Event.stdout line)
  | Writer.Stderr => s.emit (Event.stderr line)
  | Writer.fileHandle =>
    match s.Logger.LogFile with
    | none => goPanic s
    | some h =>
      let (_, h1, w1) := Write h (toBytes line) s.world
      { (s.emit (Event.fileWrite (toBytes line))) with
        Logger := { s.Logger with LogFile := some h1 }, world := w1 }

/-- Model of `(*log.Logger).Output(2, msg)`; a nil logger panics. -/
def Output (E : Env) (l : Option GoLogger) (msg : String) (s : Proc) : Proc :=
  match l with
  | none => goPanic s
  | some lg => lg.out.write (formatLine lg (E.header s.trace.length) msg) s

/-- Model of `fmt.Println(tag, msg)`, which writes to `os.Stdout`. -/
def fmtPrintln (tag msg : String) (s : Proc) : Proc :=
  s.emit (Event.stdout (Println [tag, msg]))

/-! ## Start-up: `doLogging` -/

/-- The five local handles of `doLogging`. -/
structure Handles where
  traceHandle : Writer
  infoHandle : Writer
  warnHandle : Writer
  errorHandle : Writer
  fatalHandle : Writer
  deriving DecidableEq, Repr

/-- The handles as initialised: all `ioutil.Discard`. -/
def Handles.discard : Handles :=
  { traceHandle := Writer.Discard, infoHandle := Writer.Discard,
    warnHandle := Writer.Discard, errorHandle := Writer.Discard,
    fatalHandle := Writer.Discard }

/-- Switch arm `case LevelError`. -/
def caseLevelError (hs : Handles) : Handles :=
  { hs with errorHandle := Writer.Stderr, fatalHandle := Writer.Stderr }

/-- Switch arm `case LevelWarn`, falling through. -/
def caseLevelWarn (hs : Handles) : Handles :=
  caseLevelError { hs with warnHandle := Writer.Stdout }

/-- Switch arm `case LevelInfo`, falling through. -/
def caseLevelInfo (hs : Handles) : Handles :=
  caseLevelWarn { hs with infoHandle := Writer.Stdout }

/-- Switch arm `case LevelTrace`, falling through. -/
def caseLevelTrace (hs : Handles) : Handles :=
  caseLevelInfo { hs with traceHandle := Writer.Stdout }

/-- The statement `switch logLevel` of `doLogging`. -/
def levelSwitch (logLevel : LogLevel) (hs : Handles) : Handles :=
  if logLevel = LevelTrace then caseLevelTrace hs
  else if logLevel = LevelInfo then caseLevelInfo hs
  else if logLevel = LevelWarn then caseLevelWarn hs
  else if logLevel = LevelError then caseLevelError hs
  else hs

/-- The five `if xHandle == os.Stdout / os.Stderr` redirections to the file. -/
def redirectToFile (hs : Handles) : Handles :=
  { traceHandle := if hs.traceHandle = Writer.Stdout then Writer.fileHandle
                   else hs.traceHandle,
    infoHandle := if hs.infoHandle = Writer.Stdout then Writer.fileHandle
                  else hs.infoHandle,
    warnHandle := if hs.warnHandle = Writer.Stdout then Writer.fileHandle
                  else hs.warnHandle,
    errorHandle := if hs.errorHandle = Writer.Stderr then Writer.fileHandle
                   else hs.errorHandle,
    fatalHandle := if hs.fatalHandle = Writer.Stderr then Writer.fileHandle
                   else hs.fatalHandle }

/-- The composite literal assigned to `Logger`, followed by the store of the level.
The `Fatal` logger is built on `errorHandle`. -/
def mkLogger (logLevel : LogLevel) (hs : Handles) (fileHandle : Option RotatingFileHandler) :
    mlog :=
  { LogLevel := logLevel,
    Trace := some { out := hs.traceHandle, pfx := " - [TRACE]: ", flag := DefaultFlags },
    Info := some { out := hs.infoHandle, pfx := " - [INFO]: ", flag := DefaultFlags },
    Warning := some { out := hs.warnHandle, pfx := " - [WARN]: ", flag := DefaultFlags },
    Error := some { out := hs.errorHandle, pfx := " - [ERROR]: ", flag := DefaultFlags },
    Fatal := some { out := hs.errorHandle, pfx := " - [FATAL]: ", flag := DefaultFlags },
    LogFile := fileHandle }

/-- Model of `log.Fatal(...)` on the standard logger: a line on `os.Stderr`, then
`os.Exit(1)`. -/
def logFatal (E : Env) (msg : String) (s : Proc) : Proc :=
  osExit 1 (s.emit (Event.stderr (E.header s.trace.length ++ msg ++ "\n")))

/-- The function `doLogging`. -/
def doLogging (E : Env) (logLevel : LogLevel) (fileName : String)
    (maxBytes rotateCount : Int) (s : Proc) : Proc :=
  let hs := levelSwitch logLevel Handles.discard
  if fileName ≠ "" then
    match NewRotatingFileHandler fileName maxBytes rotateCount s.world with
    | (.error err, w1) =>
      logFatal E ("mlog: unable to create RotatingFileHandler: " ++ err)
        { s with world := w1 }
    | (.ok fileHandle, w1) =>
      { s with world := w1,
               Logger := mkLogger logLevel (redirectToFile hs) (some fileHandle) }
  else
    { s with Logger := mkLogger logLevel hs none }

/-- The function `Start`. -/
def Start (E : Env) (level : LogLevel) (path : String) (s : Proc) : Proc :=
  doLogging E level path MaxBytes RotateCount s

/-- The function `StartEx`. -/
def StartEx (E : Env) (level : LogLevel) (path : String) (maxBytes rotateCount : Int)
    (s : Proc) : Proc :=
  doLogging E level path maxBytes rotateCount s

/-- The function `Stop`, with the error it returns. -/
def Stop (s : Proc) : Option OsError × Proc :=
  match s.Logger.LogFile with
  | some h =>
    let (err, h1) := Close h
    (err, { s with Logger := { s.Logger with LogFile := some h1 } })
  | none => (none, s)

/-- The function `Sync`. -/
def Sync (s : Proc) : Proc :=
  match s.Logger.LogFile with
  | some h => s.emit (Event.sync (fdSync h.fd))
  | none => s

/-! ## The logging calls -/

/-- The function `Trace`. -/
def Trace (E : Env) (format : String) (a : List Value) (s : Proc) : Proc :=
  (Output E s.Logger.Trace (E.Sprintf format a) s).andThen
    (fmtPrintln " - [TRACE]: " (E.Sprintf format a))

/-- The function `Info`. -/
def Info (E : Env) (format : String) (a : List Value) (s : Proc) : Proc :=
  (Output E s.Logger.Info (E.Sprintf format a) s).andThen
    (fmtPrintln " - [INFO]: " (E.Sprintf format a))

/-- The function `Warning`. -/
def Warning (E : Env) (format : String) (a : List Value) (s : Proc) : Proc :=
  (Output E s.Logger.Warning (E.Sprintf format a) s).andThen
    (fmtPrintln " - [WARNING]: " (E.Sprintf format a))

/-- The function `Error`. -/
def Error (E : Env) (err : Value) (s : Proc) : Proc :=
  (Output E s.Logger.Error (E.Sprintf "%s\n" [err]) s).andThen
    (fmtPrintln " - [ERROR]: " (E.Sprintf "%s" [err]))

/-- The function `IfError`. -/
def IfError (E : Env) (err : Value) (s : Proc) : Proc :=
  if err ≠ Value.nil then
    (Output E s.Logger.Error (E.Sprintf "%s\n" [err]) s).andThen
      (fmtPrintln " - [ERROR]: " (E.Sprintf "%s" [err]))
  else s

/-- The function `Fatal`. -/
def Fatal (E : Env) (a : List Value) (s : Proc) : Proc :=
  (((fmtPrintln " - [FATAL]: " (E.Sprintf "%s" a) s).andThen
    (fun s1 => Output E s1.Logger.Fatal (E.Sprint a) s1)).andThen Sync).andThen
    (osExit 255)

/-- The function `Fatalf`. -/
def Fatalf (E : Env) (format : String) (a : List Value) (s : Proc) : Proc :=
  (((fmtPrintln " - [FATAL]: " (E.Sprintf "%s" a) s).andThen
    (fun s1 => Output E s1.Logger.Fatal (E.Sprintf format a) s1)).andThen Sync).andThen
    (osExit 255)

/-- The function `FatalIfError`. -/
def FatalIfError (E : Env) (err : Value) (s : Proc) : Proc :=
  if err ≠ Value.nil then
    (((fmtPrintln " - [FATAL]: " (E.Sprintf "%s" [err]) s).andThen
      (fun s1 => Output E s1.Logger.Fatal (E.Sprintf "%s\n" [err]) s1)).andThen
      Sync).andThen (osExit 255)
  else s

/-! ## Programs that use the package -/

/-- A call of one of the exported functions. -/
inductive Call
  | Start (level : LogLevel) (path : String)
  | StartEx (level : LogLevel) (path : String) (maxBytes rotateCount : Int)
  | Stop
  | Sync
  | Trace (format : String) (a : List Value)
  | Info (format : String) (a : List Value)
  | Warning (format : String) (a : List Value)
  | Error (err : Value)
  | IfError (err : Value)
  | Fatal (a : List Value)
  | Fatalf (format : String) (a : List Value)
  | FatalIfError (err : Value)

/-- Whether the call is `Start` or `StartEx`. -/
def Call.isStart : Call → Bool
  | Call.Start _ _ => true
  | Call.StartEx _ _ _ _ => true
  | _ => false

/-- Execute one call. -/
def exec (E : Env) : Call → Proc → Proc
  | Call.Start level path, s => Start E level path s
  | Call.StartEx level path maxBytes rotateCount, s =>
    StartEx E level path maxBytes rotateCount s
  | Call.Stop, s => (Stop s).2
  | Call.Sync, s => Sync s
  | Call.Trace format a, s => Trace E format a s
  | Call.Info format a, s => Info E format a s
  | Call.Warning format a, s => Warning E format a s
  | Call.Error err, s => Error E err s
  | Call.IfError err, s => IfError E err s
  | Call.Fatal a, s => Fatal E a s
  | Call.Fatalf format a, s => Fatalf E format a s
  | Call.FatalIfError err, s => FatalIfError E err s

/-- Execute a sequence of calls; a terminated process executes nothing more. -/
def run (E : Env) : List Call → Proc → Proc
  | [], s => s
  | c :: cs, s => if s.exit.isSome then s else run E cs (exec E c s)

/-! ## A concrete formatter for evaluation

`fmt.Sprintf` and `fmt.Sprint` restricted to the verbs `%s`, `%d`, `%v` and `%%`
without flags, width or precision, on the operands of `Value`.  Other verbs are
outside this fragment.  The development is parametric in `Env`; this instance
serves to evaluate the package on concrete calls. -/

/-- The Go type of an operand, as `fmt` prints it. -/
def Value.typeName : Value → String
  | Value.str _ => "string"
  | Value.int _ => "int"
  | Value.err _ => "*errors.errorString"
  | Value.nil => "<nil>"

/-- The default format (`%v`) of an operand. -/
def Value.show : Value → String
  | Value.str s => s
  | Value.int i => toString i
  | Value.err m => m
  | Value.nil => "<nil>"

/-- Whether the operand is of string kind. -/
def Value.isString : Value → Bool
  | Value.str _ => true
  | _ => false

/-- The form `%!verb(type=value)` that `fmt` prints for a verb that does not fit. -/
def badVerb (verb : Char) (v : Value) : String :=
  match v with
  | Value.nil => "%!" ++ String.singleton verb ++ "(<nil>)"
  | _ => "%!" ++ String.singleton verb ++ "(" ++ v.typeName ++ "=" ++ v.show ++ ")"

/-- One operand printed under one verb. -/
def formatVerb (verb : Char) (v : Value) : String :=
  if verb = 'v' then v.show
  else if verb = 's' then
    match v with
    | Value.str s => s
    | Value.err m => m
    | _ => badVerb verb v
  else if verb = 'd' then
    match v with
    | Value.int i => toString i
    | Value.err m => "&\x7b" ++ badVerb verb (Value.str m) ++ "\x7d"
    | _ => badVerb verb v
  else badVerb verb v

/-- The operands left over after the format is used up, as `fmt` reports them. -/
def extraOperands : List Value → String
  | [] => ""
  | [v] => (if v = Value.nil then "<nil>" else v.typeName ++ "=" ++ v.show)
  | v :: rest =>
    (if v = Value.nil then "<nil>" else v.typeName ++ "=" ++ v.show) ++ ", " ++
      extraOperands rest

/-- Worker of `goSprintf`: whether the previous character was an unconsumed `%`, the
rest of the format, and the operands not yet used. -/
def goSprintfAux : Bool → List Char → List Value → String
  | false, [], [] => ""
  | false, [], v :: rest => "%!(EXTRA " ++ extraOperands (v :: rest) ++ ")"
  | true, [], [] => "%!(NOVERB)"
  | true, [], v :: rest => "%!(NOVERB)" ++ "%!(EXTRA " ++ extraOperands (v :: rest) ++ ")"
  | false, c :: cs, args =>
    if c = '%' then goSprintfAux true cs args
    else String.singleton c ++ goSprintfAux false cs args
  | true, verb :: cs, args =>
    if verb = '%' then "%" ++ goSprintfAux false cs args
    else
      match args with
      | [] => "%!" ++ String.singleton verb ++ "(MISSING)" ++ goSprintfAux false cs []
      | v :: rest => formatVerb verb v ++ goSprintfAux false cs rest

/-- The fragment of `fmt.Sprintf`. -/
def goSprintf (format : String) (a : List Value) : String :=
  goSprintfAux false format.data a

/-- Worker of `goSprint`: a space goes between two operands when neither is a
string. -/
def goSprintAux (prevString : Bool) : List Value → String
  | [] => ""
  | v :: rest =>
    (if !v.isString && !prevString then " " else "") ++ v.show ++
      goSprintAux v.isString rest

/-- The fragment of `fmt.Sprint`. -/
def goSprint : List Value → String
  | [] => ""
  | v :: rest => v.show ++ goSprintAux v.isString rest

/-- The environment built from the concrete formatter, with a fixed header. -/
def goEnv : Env :=
  { Sprintf := goSprintf, Sprint := goSprint,
    header := fun _ => "2018/07/27 10:00:00 main.go:52: " }

/-! ## Definitions used to state and prove the properties -/

/-- A handler as `NewRotatingFileHandler` returns it: open on `fileName`. -/
def freshHandler (fileName : String) (maxBytes rotateCount : Int) : RotatingFileHandler :=
  { fd := some { closed := false }, fileName := fileName, maxBytes := maxBytes,
    rotateCount := rotateCount }

/-- The file system in which only the empty active file exists, without injected
failures. -/
def freshWorld (fileName : String) : World :=
  { files := fun p => if p = fileName then some [] else none, faults := [] }

/-- A file system for evaluation: `app.log` holds three bytes, its first backup one
byte, and nothing else exists; no injected failures. -/
def sampleWorld : World :=
  { files := fun p => if p = "app.log" then some [1, 2, 3]
                      else if p = backupName "app.log" 1 then some [9] else none,
    faults := [] }

/-- A sequence of `Write` calls on the handler, results ignored as `log` does. -/
def writeAll : RotatingFileHandler × World → List Bytes → RotatingFileHandler × World
  | hw, [] => hw
  | hw, p :: ps => writeAll (Write hw.1 p hw.2).2 ps

/-- Bookkeeping of the rotating writer in the words of its specification: `cur` is
what was written since the last rotation, `hist` the contents rotated out so far,
newest first. -/
structure Ledger where
  cur : Bytes
  hist : List Bytes
  deriving DecidableEq, Repr

/-- One write in the bookkeeping: before writing, check whether the current size is
at least `maxBytes`; if so rotate, then append. -/
def Ledger.write (maxBytes : Int) (l : Ledger) (p : Bytes) : Ledger :=
  if maxBytes ≤ (l.cur.length : Int) then { cur := p, hist := l.cur :: l.hist }
  else { l with cur := l.cur ++ p }

/-- The bookkeeping after a sequence of writes. -/
def Ledger.writeAll (maxBytes : Int) : Ledger → List Bytes → Ledger
  | l, [] => l
  | l, p :: ps => Ledger.writeAll maxBytes (l.write maxBytes p) ps

/-- The file system after the writes `ps` through a fresh handler on the file system
in which only the empty active file exists. -/
def runWrites (fileName : String) (maxBytes : Int) (rotateCount : Nat) (ps : List Bytes) :
    World :=
  (writeAll (freshHandler fileName maxBytes rotateCount, freshWorld fileName) ps).2

/-- The file system holds exactly what the bookkeeping says: the active file is
`cur`, backup `j` is the `j`-th newest rotated-out content for `j ≤ rotateCount`,
and no other file exists. -/
def Layout (fileName : String) (rotateCount : Nat) (l : Ledger) (w : World) : Prop :=
  w.faults = [] ∧
  w.files fileName = some l.cur ∧
  (∀ j, 1 ≤ j → w.files (backupName fileName j)
      = if j ≤ rotateCount then l.hist[j - 1]? else none) ∧
  (∀ q, q ≠ fileName → (∀ j, 1 ≤ j → q ≠ backupName fileName j) → w.files q = none)

/-- The severities of the four plain logging calls. -/
inductive Severity
  | Trace
  | Info
  | Warn
  | Error
  deriving DecidableEq, Repr

/-- The level constant that carries the name of the severity. -/
def Severity.level : Severity → LogLevel
  | Severity.Trace => LevelTrace
  | Severity.Info => LevelInfo
  | Severity.Warn => LevelWarn
  | Severity.Error => LevelError

/-- The logger that the call of this severity writes its structured line to. -/
def Severity.logger : Severity → mlog → Option GoLogger
  | Severity.Trace, L => L.Trace
  | Severity.Info, L => L.Info
  | Severity.Warn, L => L.Warning
  | Severity.Error, L => L.Error

/-- The console stream of a severity: stderr for `Error`, stdout for the others. -/
def Severity.console : Severity → Writer
  | Severity.Error => Writer.Stderr
  | _ => Writer.Stdout

/-- The event that a write of `line` to the writer shows as, if any. -/
def Writer.events : Writer → String → List Event
  | Writer.Discard, _ => []
  | Writer.Stdout, line => [Event.stdout line]
  | Writer.Stderr, line => [Event.stderr line]
  | Writer.fileHandle, line => [Event.fileWrite (toBytes line)]

/-- Whether the call terminates the process: `Fatal`, `Fatalf`, and `FatalIfError`
on a non-nil error. -/
def Call.isFatal : Call → Bool
  | Call.Fatal _ => true
  | Call.Fatalf _ _ => true
  | Call.FatalIfError err => decide (err ≠ Value.nil)
  | _ => false

/-- A package state as `doLogging` assigns it: all five loggers exist, and a logger
writes to the file writer only if there is a log file. -/
def mlog.WellFormed (L : mlog) : Prop :=
  ∀ l ∈ [L.Trace, L.Info, L.Warning, L.Error, L.Fatal],
    ∃ lg, l = some lg ∧ (lg.out = Writer.fileHandle → L.LogFile.isSome = true)

/-- The process `s` is alive and has the loggers and level of `L`, and a log file
exactly if `L` has one. -/
def Runs (L : mlog) (s : Proc) : Prop :=
  s.exit = none ∧ s.Logger.Trace = L.Trace ∧ s.Logger.Info = L.Info ∧
  s.Logger.Warning = L.Warning ∧ s.Logger.Error = L.Error ∧ s.Logger.Fatal = L.Fatal ∧
  s.Logger.LogLevel = L.LogLevel ∧ s.Logger.LogFile.isSome = L.LogFile.isSome

/-- The call that took `before` to `after` wrote `echo` to the console as its last
action, after at most one other event (its structured line), and returned. -/
def EchoesOnce (before after : Proc) (echo : String) : Prop :=
  after.exit = none ∧
  ∃ pre : List Event, pre.length ≤ 1 ∧
    after.trace = before.trace ++ pre ++ [Event.stdout echo]

/-- Decoder for decimal digit strings; inverts `Nat.toDigits 10`. -/
def decodeDigits (acc : Nat) (cs : List Char) : Nat :=
  cs.foldl (fun a c => 10 * a + (c.toNat - 48)) acc

end Mlog

namespace Mlog

/-! ## Backup names are pairwise distinct -/

theorem digitChar_toNat (k : Nat) (hk : k < 10) : (Nat.digitChar k).toNat - 48 = k := by
  interval_cases k <;> rfl

theorem decodeDigits_toDigitsCore (fuel : Nat) :
    ∀ (n : Nat) (acc : List Char), n < fuel →
      decodeDigits 0 (Nat.toDigitsCore 10 fuel n acc) = decodeDigits n acc := by
  induction fuel with
  | zero => intro n acc h; omega
  | succ f ih =>
    intro n acc h
    simp only [Nat.toDigitsCore]
    split
    · rename_i h0
      have hlt : n < 10 := by omega
      simp only [decodeDigits, List.foldl_cons, Nat.mul_zero, Nat.zero_add]
      rw [digitChar_toNat _ (Nat.mod_lt _ (by decide)), Nat.mod_eq_of_lt hlt]
    · rename_i h0
      rw [ih (n / 10) _ (by omega)]
      simp only [decodeDigits, List.foldl_cons]
      rw [digitChar_toNat _ (Nat.mod_lt _ (by decide))]
      congr 1
      omega

theorem toString_nat_injective {i j : Nat} (h : toString i = toString j) : i = j := by
  have hd : (Nat.toDigits 10 i) = (Nat.toDigits 10 j) := by
    have := congrArg String.data h
    simpa [toString, Nat.repr, List.asString] using this
  have hi := decodeDigits_toDigitsCore (i + 1) i [] (by omega)
  have hj := decodeDigits_toDigitsCore (j + 1) j [] (by omega)
  simp only [Nat.toDigits] at hd
  rw [hd] at hi
  rw [hi] at hj
  simpa [decodeDigits] using hj

theorem backupName_injective {f : String} {i j : Nat}
    (h : backupName f i = backupName f j) : i = j := by
  apply toString_nat_injective
  have := congrArg String.data h
  simp only [backupName, String.data_append, List.append_assoc] at this
  have h2 := List.append_cancel_left (List.append_cancel_left this)
  exact String.ext h2

theorem backupName_ne_self (f : String) (i : Nat) : backupName f i ≠ f := by
  intro h
  have := congrArg String.length h
  simp only [backupName, String.length_append] at this
  have h1 : ".".length = 1 := rfl
  omega

theorem backupName_ne {f : String} {i j : Nat} (h : i ≠ j) :
    backupName f i ≠ backupName f j :=
  fun e => h (backupName_injective e)

/-! ## System calls without injected failures -/

theorem nextFault_of_nil {w : World} (hw : w.faults = []) : w.nextFault = (false, w) := by
  simp [World.nextFault, hw]

theorem osRename_of_none {w : World} (hw : w.faults = []) {src : String}
    (dst : String) (hs : w.files src = none) : (osRename src dst w).2 = w := by
  simp [osRename, nextFault_of_nil hw, hs]

theorem osRename_of_some {w : World} (hw : w.faults = []) {src : String} {c : Bytes}
    (dst : String) (hs : w.files src = some c) :
    (osRename src dst w).2 =
      { w with files := fun p => if p = dst then some c
                                 else if p = src then none else w.files p } := by
  simp [osRename, nextFault_of_nil hw, hs]

theorem osRename_faults {w : World} (hw : w.faults = []) (src dst : String) :
    (osRename src dst w).2.faults = [] := by
  cases hs : w.files src with
  | none => rw [osRename_of_none hw dst hs]; exact hw
  | some c => rw [osRename_of_some hw dst hs]; exact hw

/-- Effect of one rename on the content of every path, without injected failures:
the destination takes the source when there is one and keeps what it had otherwise;
the source is gone; other paths are untouched. -/
theorem osRename_files {w : World} (hw : w.faults = []) (src dst p : String)
    (hne : src ≠ dst) :
    (osRename src dst w).2.files p =
      if p = dst then (w.files src <|> w.files dst)
      else if p = src then none else w.files p := by
  cases hs : w.files src with
  | none =>
    rw [osRename_of_none hw dst hs]
    by_cases h1 : p = dst
    · simp [h1]
    · by_cases h2 : p = src
      · simp [h2, hne, hs]
      · simp [h1, h2]
  | some c =>
    rw [osRename_of_some hw dst hs]
    by_cases h1 : p = dst
    · simp [h1]
    · simp [h1]

theorem shiftBackups_faults (f : String) (k : Nat) :
    ∀ w : World, w.faults = [] → (shiftBackups f k w).faults = [] := by
  induction k with
  | zero => intro w hw; exact hw
  | succ k ih =>
    intro w hw
    simp only [shiftBackups]
    exact ih _ (osRename_faults hw _ _)

/-- Effect of the renaming loop started at `i = k`, without injected failures. -/
theorem shiftBackups_files (f : String) (k : Nat) :
    ∀ w : World, w.faults = [] →
      (∀ p, (∀ j, 1 ≤ j → j ≤ k + 1 → p ≠ backupName f j) →
        (shiftBackups f k w).files p = w.files p) ∧
      (1 ≤ k → (shiftBackups f k w).files (backupName f 1) = none) ∧
      (∀ j, 2 ≤ j → j ≤ k →
        (shiftBackups f k w).files (backupName f j) = w.files (backupName f (j - 1))) ∧
      (1 ≤ k → (shiftBackups f k w).files (backupName f (k + 1)) =
        (w.files (backupName f k) <|> w.files (backupName f (k + 1)))) := by
  induction k with
  | zero =>
    intro w _
    refine ⟨fun p _ => rfl, fun h => absurd h (by decide), fun j h2 h0 => ?_,
      fun h => absurd h (by decide)⟩
    omega
  | succ k ih =>
    intro w hw
    have hne : backupName f (k + 1) ≠ backupName f (k + 2) := backupName_ne (by omega)
    have hw1 := osRename_faults hw (backupName f (k + 1)) (backupName f (k + 2))
    obtain ⟨ha, hb, hc, hd⟩ := ih _ hw1
    have hfiles := fun p => osRename_files hw (backupName f (k + 1)) (backupName f (k + 2)) p hne
    simp only [shiftBackups]
    refine ⟨?_, ?_, ?_, ?_⟩
    · intro p hp
      rw [ha p (fun j h1 h2 => hp j h1 (by omega)), hfiles]
      simp [hp (k + 2) (by omega) (by omega), hp (k + 1) (by omega) (by omega)]
    · intro _
      by_cases hk : 1 ≤ k
      · exact hb hk
      · have hk0 : k = 0 := by omega
        subst hk0
        simp only [shiftBackups]
        rw [hfiles]
        simp [hne]
    · intro j h2 hj
      by_cases hjk : j ≤ k
      · rw [hc j h2 hjk, hfiles]
        have h1 : backupName f (j - 1) ≠ backupName f (k + 2) := backupName_ne (by omega)
        have h3 : backupName f (j - 1) ≠ backupName f (k + 1) := backupName_ne (by omega)
        simp [h1, h3]
      · have hj1 : j = k + 1 := by omega
        subst hj1
        rw [hd (by omega), hfiles, hfiles]
        have h1 : backupName f k ≠ backupName f (k + 2) := backupName_ne (by omega)
        have h3 : backupName f k ≠ backupName f (k + 1) := backupName_ne (by omega)
        simp [h1, h3, hne]
    · intro _
      rw [ha _ (fun j _ h2 => backupName_ne (by omega)), hfiles]
      simp

theorem doRollover_of_small (h : RotatingFileHandler) (w : World) (c : Bytes)
    (hfd : h.fd = some { closed := false }) (hc : w.files h.fileName = some c)
    (hsmall : (c.length : Int) < h.maxBytes) : doRollover h w = (h, w) := by
  simp only [doRollover, fdStat, hfd, hc]
  simp [hsmall]

theorem osOpenFile_of_none {w : World} (hw : w.faults = []) {name : String}
    (hn : w.files name = none) :
    osOpenFile name w = (some { closed := false },
      { w with files := fun p => if p = name then some [] else w.files p }) := by
  simp [osOpenFile, nextFault_of_nil hw, hn]

/-- The rotation branch of `doRollover`, without injected failures: what the handler
and every path look like afterwards. -/
theorem doRollover_of_full (h : RotatingFileHandler) (w : World) (c : Bytes) (N : Nat)
    (hfd : h.fd = some { closed := false }) (hc : w.files h.fileName = some c)
    (hM : 0 < h.maxBytes) (hfull : h.maxBytes ≤ (c.length : Int))
    (hN : h.rotateCount = (N : Int)) (hN1 : 1 ≤ N) (hw : w.faults = []) :
    (doRollover h w).1 = h ∧
    (doRollover h w).2.faults = [] ∧
    (doRollover h w).2.files h.fileName = some [] ∧
    (doRollover h w).2.files (backupName h.fileName 1) = some c ∧
    (∀ j, 2 ≤ j → j < N →
      (doRollover h w).2.files (backupName h.fileName j)
        = w.files (backupName h.fileName (j - 1))) ∧
    (2 ≤ N → (doRollover h w).2.files (backupName h.fileName N)
        = (w.files (backupName h.fileName (N - 1)) <|> w.files (backupName h.fileName N))) ∧
    (∀ p, p ≠ h.fileName → (∀ j, 1 ≤ j → j ≤ N → p ≠ backupName h.fileName j) →
      (doRollover h w).2.files p = w.files p) := by
  obtain ⟨fd, f, M, R⟩ := h
  simp only at hfd hc hM hfull hN
  subst hfd hN
  have hk : ((N : Int) - 1).toNat = N - 1 := by omega
  have hN0 : (N : Int) > 0 := by omega
  obtain ⟨ha, hb, hcc, hd⟩ := shiftBackups_files f (N - 1) w hw
  have hw1 := shiftBackups_faults f (N - 1) w hw
  have hne1 : f ≠ backupName f 1 := (backupName_ne_self f 1).symm
  have hsf : (shiftBackups f (N - 1) w).files f = some c := by
    rw [ha f (fun j _ _ => (backupName_ne_self f j).symm)]; exact hc
  have hren := fun p => osRename_files hw1 f (backupName f 1) p hne1
  have hw2 := osRename_faults hw1 f (backupName f 1)
  have hgone : (osRename f (backupName f 1) (shiftBackups f (N - 1) w)).2.files f = none := by
    rw [hren]; simp [hne1]
  have hdo : doRollover ⟨some { closed := false }, f, M, (N : Int)⟩ w =
      (⟨some { closed := false }, f, M, (N : Int)⟩,
       { (osRename f (backupName f 1) (shiftBackups f (N - 1) w)).2 with
         files := fun p => if p = f then some []
           else (osRename f (backupName f 1) (shiftBackups f (N - 1) w)).2.files p }) := by
    simp only [doRollover, fdStat, hc, hk]
    simp [not_le.mpr hM, not_lt.mpr hfull, hN0, osOpenFile_of_none hw2 hgone]
  rw [hdo]
  refine ⟨rfl, hw2, by simp, ?_, ?_, ?_, ?_⟩
  · simp only [hren, hsf]
    simp [backupName_ne_self]
  · intro j h2 hj
    simp only [hren]
    have h1 : backupName f j ≠ backupName f 1 := backupName_ne (by omega)
    simp only [backupName_ne_self, h1, if_false]
    exact hcc j h2 (by omega)
  · intro h2
    simp only [hren]
    have h1 : backupName f N ≠ backupName f 1 := backupName_ne (by omega)
    simp only [backupName_ne_self, h1, if_false]
    have := hd (by omega)
    rwa [Nat.sub_add_cancel hN1] at this
  · intro p hp hj
    simp only [hren, hp, if_false]
    simp only [hj 1 (by omega) hN1, if_false]
    exact ha p (fun j h1 h2 => hj j h1 (by omega))

theorem Write_of_small (h : RotatingFileHandler) (w : World) (c p : Bytes)
    (hfd : h.fd = some { closed := false }) (hc : w.files h.fileName = some c)
    (hsmall : (c.length : Int) < h.maxBytes) :
    Write h p w = (.ok p.length, h,
      { w with files := fun q => if q = h.fileName then some (c ++ p) else w.files q }) := by
  simp [Write, doRollover_of_small h w c hfd hc hsmall, fdWrite, hfd, hc]

theorem Write_of_full (h : RotatingFileHandler) (w : World) (c p : Bytes) (N : Nat)
    (hfd : h.fd = some { closed := false }) (hc : w.files h.fileName = some c)
    (hM : 0 < h.maxBytes) (hfull : h.maxBytes ≤ (c.length : Int))
    (hN : h.rotateCount = (N : Int)) (hN1 : 1 ≤ N) (hw : w.faults = []) :
    (Write h p w).1 = .ok p.length ∧
    (Write h p w).2.1 = h ∧
    (Write h p w).2.2.faults = [] ∧
    (∀ q, (Write h p w).2.2.files q =
      if q = h.fileName then some p else (doRollover h w).2.files q) := by
  obtain ⟨h1, h2, h3, -⟩ := doRollover_of_full h w c N hfd hc hM hfull hN hN1 hw
  have e : doRollover h w = (h, (doRollover h w).2) := Prod.ext h1 rfl
  simp only [Write]
  rw [e]
  simp only [fdWrite, hfd, h3]
  refine ⟨by simp, by simp, by simpa using h2, ?_⟩
  intro q
  by_cases hq : q = h.fileName <;> simp [hq]

/-! ## The rotating writer: claims C2, C10, C3 -/

/-- Claim C2.  A handler with `maxBytes > 0` and `rotateCount = N ≥ 1`, open on an
active file whose content before the write is `c`.  (1) If `c` is shorter than
`maxBytes`, `Write p` renames nothing, whatever failures are scheduled: it returns
`len p`, leaves the handler and every other path as they were and the active file
holds `c ++ p`, also when that reaches or passes `maxBytes`.  (2) If `c` has at least
`maxBytes` bytes, the rotation runs first and, system calls succeeding, `p` alone
ends up in the fresh active file while `c` is in backup 1.  (3) Hence the write that
first makes the size reach `maxBytes` lands in the pre-rotation file, and the next
write `q` is the one that rotates it out. -/
theorem C2_rotation_decided_by_size_before_write
    (h : RotatingFileHandler) (w : World) (c p q : Bytes) (N : Nat)
    (hfd : h.fd = some { closed := false }) (hc : w.files h.fileName = some c)
    (hM : 0 < h.maxBytes) (hN : h.rotateCount = (N : Int)) (hN1 : 1 ≤ N) :
    ((c.length : Int) < h.maxBytes →
      Write h p w = (.ok p.length, h,
        { w with files := fun x => if x = h.fileName then some (c ++ p) else w.files x })) ∧
    (h.maxBytes ≤ (c.length : Int) → w.faults = [] →
      (Write h p w).1 = .ok p.length ∧ (Write h p w).2.1 = h ∧
      (Write h p w).2.2.files h.fileName = some p ∧
      (Write h p w).2.2.files (backupName h.fileName 1) = some c) ∧
    ((c.length : Int) < h.maxBytes → h.maxBytes ≤ ((c ++ p).length : Int) →
      w.faults = [] →
      (Write h p w).2.2.files h.fileName = some (c ++ p) ∧
      (Write h p w).2.2.files (backupName h.fileName 1) = w.files (backupName h.fileName 1) ∧
      (Write (Write h p w).2.1 q (Write h p w).2.2).2.2.files h.fileName = some q ∧
      (Write (Write h p w).2.1 q (Write h p w).2.2).2.2.files (backupName h.fileName 1)
        = some (c ++ p)) := by
  have full : ∀ (w1 : World) (c1 p1 : Bytes), w1.files h.fileName = some c1 →
      h.maxBytes ≤ (c1.length : Int) → w1.faults = [] →
      (Write h p1 w1).1 = .ok p1.length ∧ (Write h p1 w1).2.1 = h ∧
      (Write h p1 w1).2.2.files h.fileName = some p1 ∧
      (Write h p1 w1).2.2.files (backupName h.fileName 1) = some c1 := by
    intro w1 c1 p1 hc1 hfull hw
    obtain ⟨r1, r2, _, r4⟩ := Write_of_full h w1 c1 p1 N hfd hc1 hM hfull hN hN1 hw
    obtain ⟨_, _, _, d4, _⟩ := doRollover_of_full h w1 c1 N hfd hc1 hM hfull hN hN1 hw
    refine ⟨r1, r2, ?_, ?_⟩
    · rw [r4]; simp
    · rw [r4]; simp [backupName_ne_self, d4]
  refine ⟨fun hs => Write_of_small h w c p hfd hc hs, fun hf hw => full w c p hc hf hw, ?_⟩
  intro hs hf hw
  have e := Write_of_small h w c p hfd hc hs
  rw [e]
  have hc2 : World.files
      { w with files := fun x => if x = h.fileName then some (c ++ p) else w.files x }
      h.fileName = some (c ++ p) := by simp
  obtain ⟨_, _, r3, r4⟩ := full _ (c ++ p) q hc2 hf hw
  exact ⟨by simp, by simp [backupName_ne_self], r3, r4⟩

/-- Witness of C2 on `app.log` with `maxBytes = 4`, two backups, writes of 4 and 1
bytes into the empty file. -/
theorem C2_rotation_decided_by_size_before_write_witness :
    (Write (freshHandler "app.log" 4 2) [1, 2, 3, 4] (freshWorld "app.log")).2.2.files
        "app.log" = some ([] ++ [1, 2, 3, 4]) ∧
    (Write (Write (freshHandler "app.log" 4 2) [1, 2, 3, 4] (freshWorld "app.log")).2.1 [5]
      (Write (freshHandler "app.log" 4 2) [1, 2, 3, 4] (freshWorld "app.log")).2.2).2.2.files
        (backupName "app.log" 1) = some ([] ++ [1, 2, 3, 4]) :=
  have h := (C2_rotation_decided_by_size_before_write (freshHandler "app.log" 4 2)
    (freshWorld "app.log") [] [1, 2, 3, 4] [5] 2 rfl rfl (by decide) rfl (by decide)).2.2
    (by decide) (by decide) rfl
  ⟨h.1, h.2.2.2⟩

/-- The method `doRollover` either changes nothing or runs the rotation branch, which needs an
open handle on an existing active file of at least `maxBytes > 0` bytes. -/
theorem doRollover_cases (h : RotatingFileHandler) (w : World) :
    doRollover h w = (h, w) ∨
    (h.fd = some { closed := false } ∧ 0 < h.maxBytes ∧ 0 < h.rotateCount ∧
      ∃ c, w.files h.fileName = some c ∧ h.maxBytes ≤ (c.length : Int)) := by
  unfold doRollover
  cases hs : fdStat h.fd h.fileName w with
  | error e => left; rfl
  | ok size =>
    simp only
    by_cases h1 : h.maxBytes ≤ 0
    · left; simp [h1]
    · by_cases h2 : size < h.maxBytes
      · left; simp [h1, h2]
      · by_cases h3 : h.rotateCount > 0
        · right
          unfold fdStat at hs
          cases hfd : h.fd with
          | none => simp [hfd] at hs
          | some f =>
            obtain ⟨cl⟩ := f
            cases cl with
            | true => simp [hfd] at hs
            | false =>
              cases hc : w.files h.fileName with
              | none => simp [hfd, hc] at hs
              | some c =>
                simp [hfd, hc] at hs
                refine ⟨rfl, by omega, h3, c, rfl, ?_⟩
                rw [hs]; omega
        · left; simp [h1, h2, h3]

theorem fdWrite_isSome (fd : Option File) (name : String) (p : Bytes) (w : World)
    (q : String) :
    ((fdWrite fd name p w).2.files q).isSome = (w.files q).isSome := by
  unfold fdWrite
  cases fd with
  | none => rfl
  | some f =>
    simp only
    split
    · rfl
    · split
      · rfl
      · rename_i c hc
        by_cases hq : q = name
        · simp [hq, hc]
        · simp [hq]

/-- Claim C10.  Contiguity of the backup chain is preserved by `Write`: with
`rotateCount = N ≥ 1` and no injected failure, if the backups that exist are exactly
`path.1 .. path.k` with `k ≤ N` and the active file exists, then after `Write p` the
backups that exist are exactly `path.1 .. path.k'` for some `k ≤ k' ≤ N` and the
active file still exists.  This holds for every state of the handle and every
`maxBytes`, whether or not the write rotates. -/
theorem C10_write_keeps_backup_chain_contiguous
    (h : RotatingFileHandler) (w : World) (p : Bytes) (N k : Nat)
    (hN : h.rotateCount = (N : Int)) (hN1 : 1 ≤ N) (hw : w.faults = [])
    (hk : k ≤ N)
    (hchain : ∀ j, 1 ≤ j → ((w.files (backupName h.fileName j)).isSome ↔ j ≤ k))
    (hactive : (w.files h.fileName).isSome) :
    ∃ k2, k ≤ k2 ∧ k2 ≤ N ∧
      (∀ j, 1 ≤ j →
        (((Write h p w).2.2.files (backupName h.fileName j)).isSome ↔ j ≤ k2)) ∧
      ((Write h p w).2.2.files h.fileName).isSome := by
  rcases doRollover_cases h w with hno | ⟨hfd, hM, _, c, hc, hfull⟩
  · refine ⟨k, le_refl k, hk, ?_, ?_⟩
    · intro j hj
      simp only [Write, hno, fdWrite_isSome]
      exact hchain j hj
    · simp only [Write, hno, fdWrite_isSome]
      exact hactive
  · obtain ⟨d1, _, d3, d4, d5, d6, d7⟩ :=
      doRollover_of_full h w c N hfd hc hM hfull hN hN1 hw
    have e : doRollover h w = (h, (doRollover h w).2) := Prod.ext d1 rfl
    have hW : ∀ x, ((Write h p w).2.2.files x).isSome = ((doRollover h w).2.files x).isSome := by
      intro x
      simp only [Write]
      rw [e]
      exact fdWrite_isSome _ _ _ _ _
    refine ⟨min (k + 1) N, by omega, by omega, ?_, ?_⟩
    · intro j hj
      rw [hW]
      by_cases hj1 : j = 1
      · subst hj1
        rw [d4]
        simp
        omega
      · by_cases hjN : j < N
        · rw [d5 j (by omega) hjN, hchain (j - 1) (by omega)]
          omega
        · by_cases hjeq : j = N
          · subst hjeq
            rw [d6 (by omega)]
            have a1 := hchain (j - 1) (by omega)
            have a2 := hchain j hj
            cases h1 : w.files (backupName h.fileName (j - 1)) with
            | none =>
              rw [h1] at a1
              simp only [Option.isSome_none, Bool.false_eq_true, false_iff] at a1
              cases h2 : w.files (backupName h.fileName j) with
              | none => simp; omega
              | some y =>
                rw [h2] at a2
                simp only [Option.isSome_some, true_iff] at a2
                omega
            | some y =>
              rw [h1] at a1
              simp only [Option.isSome_some, true_iff] at a1
              simp
              omega
          · rw [d7 _ (backupName_ne_self _ _)
              (fun i _ hi => backupName_ne (by omega)), hchain j hj]
            omega
    · rw [hW, d3]; rfl

/-- Witness of C10: `app.log` with three bytes and one backup out of at most two,
`maxBytes = 2`, so that the write rotates. -/
theorem C10_write_keeps_backup_chain_contiguous_witness :
    ∃ k2, 1 ≤ k2 ∧ k2 ≤ 2 ∧
      (∀ j, 1 ≤ j →
        (((Write (freshHandler "app.log" 2 2) [7] sampleWorld).2.2.files
          (backupName (freshHandler "app.log" 2 2).fileName j)).isSome ↔ j ≤ k2)) ∧
      ((Write (freshHandler "app.log" 2 2) [7] sampleWorld).2.2.files
        (freshHandler "app.log" 2 2).fileName).isSome :=
  C10_write_keeps_backup_chain_contiguous (freshHandler "app.log" 2 2) sampleWorld
    [7] 2 1 rfl (by decide) rfl (by decide)
    (by
      intro j hj
      by_cases h1 : j = 1
      · subst h1; simp [sampleWorld, freshHandler, backupName_ne_self]
      · have h2 : backupName "app.log" j ≠ backupName "app.log" 1 := backupName_ne h1
        simp [sampleWorld, freshHandler, backupName_ne_self, h2]
        omega)
    (by decide)

theorem Layout_fresh (f : String) (N : Nat) : Layout f N ⟨[], []⟩ (freshWorld f) := by
  refine ⟨rfl, by simp [freshWorld], ?_, ?_⟩
  · intro j _
    simp [freshWorld, backupName_ne_self]
  · intro q hq _
    simp [freshWorld, hq]

/-- One `Write` keeps the file system in step with the bookkeeping. -/
theorem Layout_write (f : String) (M : Int) (N : Nat) (l : Ledger) (w : World) (p : Bytes)
    (hM : 0 < M) (hN : 1 ≤ N) (hl : Layout f N l w) :
    (Write (freshHandler f M N) p w).2.1 = freshHandler f M N ∧
    Layout f N (l.write M p) (Write (freshHandler f M N) p w).2.2 := by
  obtain ⟨hw, hcur, hbak, hoth⟩ := hl
  by_cases hfull : M ≤ (l.cur.length : Int)
  · obtain ⟨_, r2, r3, r4⟩ := Write_of_full (freshHandler f M N) w l.cur p N rfl hcur hM
      hfull rfl hN hw
    obtain ⟨_, _, _, d4, d5, d6, d7⟩ := doRollover_of_full (freshHandler f M N) w l.cur N
      rfl hcur hM hfull rfl hN hw
    have hfn : (freshHandler f M N).fileName = f := rfl
    rw [hfn] at r4 d4 d5 d6 d7
    refine ⟨r2, r3, ?_, ?_, ?_⟩
    · rw [r4]; simp [Ledger.write, hfull]
    · intro j hj
      rw [r4]
      simp only [backupName_ne_self, if_false, Ledger.write, hfull, if_true]
      by_cases hj1 : j = 1
      · subst hj1; simp [d4, hN]
      · obtain ⟨i, rfl⟩ : ∃ i, j = i + 2 := ⟨j - 2, by omega⟩
        simp only [Nat.add_sub_cancel, show i + 2 - 1 = i + 1 by omega,
          List.getElem?_cons_succ]
        by_cases hjN : i + 2 < N
        · rw [d5 _ (by omega) hjN, hbak _ (by omega)]
          simp [show i + 2 - 1 = i + 1 by omega, show i + 1 ≤ N by omega,
            show i + 2 ≤ N by omega]
        · by_cases hjeq : i + 2 = N
          · rw [hjeq, d6 (by omega), hbak _ (by omega), hbak _ (by omega)]
            have e1 : N - 1 = i + 1 := by omega
            simp only [e1, show i + 1 ≤ N by omega, le_refl, if_true, Nat.add_sub_cancel]
            cases hi : l.hist[i]? with
            | some x => simp
            | none =>
              have : l.hist.length ≤ i := List.getElem?_eq_none_iff.mp hi
              simp [List.getElem?_eq_none_iff.mpr (show l.hist.length ≤ N - 1 by omega)]
              omega
          · rw [d7 _ (backupName_ne_self _ _) (fun k _ hk => backupName_ne (by omega)),
              hbak _ (by omega)]
            simp [show ¬ (i + 2 ≤ N) by omega]
    · intro q hq hj
      rw [r4]
      simp only [hq, if_false]
      rw [d7 q hq (fun k hk _ => hj k hk)]
      exact hoth q hq hj
  · have hsmall : (l.cur.length : Int) < (freshHandler f M N).maxBytes := by
      simpa [freshHandler] using hfull
    have e := Write_of_small (freshHandler f M N) w l.cur p rfl hcur hsmall
    rw [e]
    have hfn : (freshHandler f M N).fileName = f := rfl
    simp only [hfn]
    refine ⟨trivial, hw, by simp [Ledger.write, hfull], ?_, ?_⟩
    · intro j hj
      simp only [backupName_ne_self, if_false, Ledger.write, hfull]
      exact hbak j hj
    · intro q hq hj
      simp only [hq, if_false]
      exact hoth q hq hj

theorem Layout_writeAll (f : String) (M : Int) (N : Nat) (hM : 0 < M) (hN : 1 ≤ N)
    (ps : List Bytes) : ∀ (l : Ledger) (w : World), Layout f N l w →
      Layout f N (Ledger.writeAll M l ps) (writeAll (freshHandler f M N, w) ps).2 := by
  induction ps with
  | nil => intro l w hl; exact hl
  | cons p ps ih =>
    intro l w hl
    obtain ⟨e1, e2⟩ := Layout_write f M N l w p hM hN hl
    simp only [writeAll, Ledger.writeAll]
    have : (Write (freshHandler f M N) p w).2 =
        (freshHandler f M N, (Write (freshHandler f M N) p w).2.2) := Prod.ext e1 rfl
    rw [this]
    exact ih _ _ e2


/-- Claim C3.  Backup count `N ≥ 1`, `maxBytes > 0`, start from the file system where
only the empty active file exists, no injected failure (every rename of an existing
file succeeds), and any sequence of writes `ps`.  Let `cur` be what was written since
the last rotation and `hist` the contents rotated out, newest first, so that
`hist.length` rotations took place.  Then the active file holds exactly `cur`; backup
`path.j` holds the content rotated out `j` rotations ago for `1 ≤ j ≤ N`; the backups
that exist are exactly `path.1 .. path.min N hist.length`; no other file exists; and
every content in the file system is `cur` or among the `N` newest rotated-out
contents.  After `N` rotations there are thus exactly `N` backups, and after `N + 1`
still exactly `N`, the oldest content (in `path.N` before that rotation) being in no
file any more. -/
theorem C3_backups_after_rotations (f : String) (M : Int) (N : Nat) (ps : List Bytes)
    (hM : 0 < M) (hN : 1 ≤ N) :
    (runWrites f M N ps).files f = some (Ledger.writeAll M ⟨[], []⟩ ps).cur ∧
    (∀ j, 1 ≤ j → j ≤ N → (runWrites f M N ps).files (backupName f j)
        = (Ledger.writeAll M ⟨[], []⟩ ps).hist[j - 1]?) ∧
    (∀ j, 1 ≤ j → (((runWrites f M N ps).files (backupName f j)).isSome
        ↔ j ≤ min N (Ledger.writeAll M ⟨[], []⟩ ps).hist.length)) ∧
    (∀ q, q ≠ f → (∀ j, 1 ≤ j → q ≠ backupName f j) →
        (runWrites f M N ps).files q = none) ∧
    (∀ q x, (runWrites f M N ps).files q = some x →
        x = (Ledger.writeAll M ⟨[], []⟩ ps).cur
          ∨ x ∈ (Ledger.writeAll M ⟨[], []⟩ ps).hist.take N) := by
  obtain ⟨_, hcur, hbak, hoth⟩ :=
    Layout_writeAll f M N hM hN ps ⟨[], []⟩ (freshWorld f) (Layout_fresh f N)
  have hb : ∀ j, 1 ≤ j → j ≤ N → (runWrites f M N ps).files (backupName f j)
      = (Ledger.writeAll M ⟨[], []⟩ ps).hist[j - 1]? := by
    intro j hj hjN
    have := hbak j hj
    simpa [hjN] using this
  refine ⟨hcur, hb, ?_, hoth, ?_⟩
  · intro j hj
    have := hbak j hj
    unfold runWrites
    rw [this]
    by_cases hjN : j ≤ N
    · simp only [hjN, if_true]
      cases hg : (Ledger.writeAll M ⟨[], []⟩ ps).hist[j - 1]? with
      | none =>
        have := List.getElem?_eq_none_iff.mp hg
        simp
        omega
      | some x =>
        have : j - 1 < (Ledger.writeAll M ⟨[], []⟩ ps).hist.length := by
          by_contra hc
          rw [List.getElem?_eq_none_iff.mpr (by omega)] at hg
          exact absurd hg (by simp)
        simp
        omega
    · simp [hjN]
  · intro q x hq
    by_cases hqf : q = f
    · subst hqf
      left
      have := hcur
      unfold runWrites at hq
      rw [this] at hq
      exact (Option.some.inj hq).symm
    · by_cases hex : ∃ j, 1 ≤ j ∧ q = backupName f j
      · obtain ⟨j, hj, rfl⟩ := hex
        right
        have h1 := hbak j hj
        unfold runWrites at hq
        rw [h1] at hq
        by_cases hjN : j ≤ N
        · simp only [hjN, if_true] at hq
          have hlt : j - 1 < (Ledger.writeAll M ⟨[], []⟩ ps).hist.length := by
            by_contra hc
            rw [List.getElem?_eq_none_iff.mpr (by omega)] at hq
            exact absurd hq (by simp)
          rw [List.mem_iff_getElem?]
          refine ⟨j - 1, ?_⟩
          rw [List.getElem?_take_of_lt (by omega)]
          exact hq
        · simp [hjN] at hq
      · have := hoth q hqf (fun j hj e => hex ⟨j, hj, e⟩)
        unfold runWrites at hq
        rw [this] at hq
        exact absurd hq (by simp)

/-- Witness of C3: `maxBytes = 2`, two backups, four writes of two bytes each, hence
three rotations; the first content `[1, 2]` is in no file any more. -/
theorem C3_backups_after_rotations_witness :
    (0 : Int) < 2 ∧ 1 ≤ 2 ∧
    (runWrites "app.log" 2 2 [[1, 2], [3, 4], [5, 6], [7, 8]]).files "app.log"
      = some (Ledger.writeAll 2 ⟨[], []⟩ [[1, 2], [3, 4], [5, 6], [7, 8]]).cur ∧
    (∀ q x, (runWrites "app.log" 2 2 [[1, 2], [3, 4], [5, 6], [7, 8]]).files q = some x →
      x = (Ledger.writeAll 2 ⟨[], []⟩ [[1, 2], [3, 4], [5, 6], [7, 8]]).cur
        ∨ x ∈ (Ledger.writeAll 2 ⟨[], []⟩ [[1, 2], [3, 4], [5, 6], [7, 8]]).hist.take 2) :=
  ⟨by decide, by decide,
    (C3_backups_after_rotations "app.log" 2 2 [[1, 2], [3, 4], [5, 6], [7, 8]]
      (by decide) (by decide)).1,
    (C3_backups_after_rotations "app.log" 2 2 [[1, 2], [3, 4], [5, 6], [7, 8]]
      (by decide) (by decide)).2.2.2.2⟩

/-! ## Failures and closing: claims C7, C9 -/

/-- Claim C7 as stated fails.  Handler on `app.log` with `maxBytes = 2` and one
backup, the active file holding three bytes; the rename of the active file succeeds
and the reopen that follows fails.  `Write [7]` then returns `ErrInvalid` and leaves
the handler with a nil handle; the next `Write [8]`, with no failure left in the
schedule, returns `ErrInvalid` as well, and neither slice reaches the active file. -/
theorem C7_write_fails_after_failed_reopen :
    (Write (freshHandler "app.log" 2 1) [7]
        { sampleWorld with faults := [false, true] }).1 = .error OsError.ErrInvalid ∧
    (Write (freshHandler "app.log" 2 1) [7]
        { sampleWorld with faults := [false, true] }).2.1.fd = none ∧
    (Write (freshHandler "app.log" 2 1) [7]
        { sampleWorld with faults := [false, true] }).2.2.faults = [] ∧
    (Write
        (Write (freshHandler "app.log" 2 1) [7]
          { sampleWorld with faults := [false, true] }).2.1 [8]
        (Write (freshHandler "app.log" 2 1) [7]
          { sampleWorld with faults := [false, true] }).2.2).1
      = .error OsError.ErrInvalid ∧
    (Write
        (Write (freshHandler "app.log" 2 1) [7]
          { sampleWorld with faults := [false, true] }).2.1 [8]
        (Write (freshHandler "app.log" 2 1) [7]
          { sampleWorld with faults := [false, true] }).2.2).2.2.files "app.log" = none := by
  exact ⟨rfl, by decide, by decide, rfl, by decide⟩

theorem nextFault_spec (w : World) :
    w.nextFault.1 = (w.faults[0]? == some true) ∧
    w.nextFault.2.faults = w.faults.drop 1 ∧
    w.nextFault.2.files = w.files := by
  unfold World.nextFault
  cases hf : w.faults with
  | nil => simp [hf]
  | cons b rest => cases b <;> simp

theorem osRename_faults_drop (src dst : String) (w : World) :
    (osRename src dst w).2.faults = w.faults.drop 1 := by
  obtain ⟨_, h2, _⟩ := nextFault_spec w
  unfold osRename
  cases hn : w.nextFault with
  | mk fault w1 =>
    rw [hn] at h2
    simp only at h2 ⊢
    cases fault with
    | true => simpa using h2
    | false =>
      simp only [Bool.false_eq_true, if_false]
      cases w1.files src <;> simpa using h2

theorem shiftBackups_faults_drop (f : String) (k : Nat) :
    ∀ w : World, (shiftBackups f k w).faults = w.faults.drop k := by
  induction k with
  | zero => intro w; simp [shiftBackups]
  | succ k ih =>
    intro w
    simp only [shiftBackups]
    rw [ih, osRename_faults_drop, List.drop_drop]
    congr 1
    omega

/-- One rename under any fault schedule: it consumes one entry of the schedule; hit by
a failure it changes no file; otherwise an existing source is moved to the
destination. -/
theorem osRename_spec (src dst : String) (w : World) :
    (w.faults[0]? = some true → (osRename src dst w).2.files = w.files) ∧
    (w.faults[0]? ≠ some true → ∀ c, w.files src = some c → src ≠ dst →
      (osRename src dst w).2.files src = none ∧
      (osRename src dst w).2.files dst = some c) ∧
    (∀ q, q ≠ src → q ≠ dst → (osRename src dst w).2.files q = w.files q) := by
  obtain ⟨h1, _, h3⟩ := nextFault_spec w
  unfold osRename
  cases hn : w.nextFault with
  | mk fault w1 =>
    rw [hn] at h1 h3
    simp only at h1 h3 ⊢
    cases fault with
    | true =>
      refine ⟨fun _ => by simpa using h3, fun hx => ?_, fun q _ _ => by simp [h3]⟩
      exact absurd (by simpa using h1.symm) hx
    | false =>
      simp only [Bool.false_eq_true, if_false]
      refine ⟨fun hx => ?_, fun _ c hc hne => ?_, fun q hq1 hq2 => ?_⟩
      · rw [hx] at h1; simp at h1
      · rw [← h3] at hc
        simp [hc, hne]
      · cases hs : w1.files src with
        | none => simp [h3]
        | some y => simp [hq1, hq2, h3]

/-- The renaming loop never touches the active file, whatever the fault schedule. -/
theorem shiftBackups_files_active (f : String) (k : Nat) :
    ∀ w : World, (shiftBackups f k w).files f = w.files f := by
  induction k with
  | zero => intro w; rfl
  | succ k ih =>
    intro w
    simp only [shiftBackups]
    rw [ih]
    exact (osRename_spec _ _ w).2.2 f (backupName_ne_self f _).symm
      (backupName_ne_self f _).symm

/-- The reopen under any fault schedule: hit by a failure it returns the nil handle
and changes no file; otherwise it returns an open handle, keeps an existing file as
it is and creates a missing one empty. -/
theorem osOpenFile_spec (name : String) (w : World) :
    (w.faults[0]? = some true →
      (osOpenFile name w).1 = none ∧ (osOpenFile name w).2.files = w.files) ∧
    (w.faults[0]? ≠ some true →
      (osOpenFile name w).1 = some { closed := false } ∧
      (osOpenFile name w).2.files name = some ((w.files name).getD [])) := by
  obtain ⟨h1, _, h3⟩ := nextFault_spec w
  unfold osOpenFile
  cases hn : w.nextFault with
  | mk fault w1 =>
    rw [hn] at h1 h3
    simp only at h1 h3 ⊢
    cases fault with
    | true =>
      refine ⟨fun _ => by simpa using h3, fun hx => ?_⟩
      exact absurd (by simpa using h1.symm) hx
    | false =>
      simp only [Bool.false_eq_true, if_false]
      refine ⟨fun hx => ?_, fun _ => ?_⟩
      · rw [hx] at h1; simp at h1
      · cases hx : w1.files name with
        | none => rw [← h3, hx]; simp
        | some y => rw [← h3, hx]; simp [hx]

theorem Write_of_nil (h : RotatingFileHandler) (p : Bytes) (w : World) (hfd : h.fd = none) :
    Write h p w = (.error OsError.ErrInvalid, h, w) := by
  simp [Write, doRollover, fdStat, fdWrite, hfd]

/-- Claim C7, amended.  A handler open on an active file with content `c`, any fault
schedule and any slice `p`; a rotation is due when `maxBytes > 0`, `c` has at least
`maxBytes` bytes and `rotateCount > 0`, and it then makes `rotateCount` renames (entry
`rotateCount - 1` of the schedule decides the rename of the active file) followed by
the reopen (entry `rotateCount`).
(1) No rotation due: `Write p` returns `len p` and appends `p` to `c`.
(2) Rotation due and the reopen not hit by a failure: whichever renames fail,
`Write p` returns `len p`, the handler is as before (open), and the active file holds
`p` appended to what the reopened file held: `c` when the rename of the active file
failed, nothing when it succeeded (then `c` is in backup 1).  The state again meets
the hypotheses, so later writes succeed in the same way.
(3) Rotation due and the reopen hit by a failure: `Write p` returns `ErrInvalid`, `p`
is written nowhere, the handler is left with a nil handle, and every later `Write`
returns `ErrInvalid` and changes nothing. -/
theorem C7_rename_failures_swallowed (h : RotatingFileHandler) (w : World) (p c : Bytes)
    (hfd : h.fd = some { closed := false }) (hc : w.files h.fileName = some c) :
    (¬ (0 < h.maxBytes ∧ h.maxBytes ≤ (c.length : Int) ∧ 0 < h.rotateCount) →
      Write h p w = (.ok p.length, h,
        { w with files := fun x => if x = h.fileName then some (c ++ p) else w.files x })) ∧
    (0 < h.maxBytes ∧ h.maxBytes ≤ (c.length : Int) ∧ 0 < h.rotateCount →
      w.faults[h.rotateCount.toNat]? ≠ some true →
      (Write h p w).1 = .ok p.length ∧
      (Write h p w).2.1 = h ∧
      (Write h p w).2.2.files h.fileName
        = some ((if w.faults[h.rotateCount.toNat - 1]? = some true then c else []) ++ p) ∧
      (w.faults[h.rotateCount.toNat - 1]? ≠ some true →
        (Write h p w).2.2.files (backupName h.fileName 1) = some c)) ∧
    (0 < h.maxBytes ∧ h.maxBytes ≤ (c.length : Int) ∧ 0 < h.rotateCount →
      w.faults[h.rotateCount.toNat]? = some true →
      (Write h p w).1 = .error OsError.ErrInvalid ∧
      (Write h p w).2.1 = { h with fd := none } ∧
      (Write h p w).2.2.files h.fileName
        = (if w.faults[h.rotateCount.toNat - 1]? = some true then some c else none) ∧
      ∀ (q : Bytes) (w2 : World),
        Write (Write h p w).2.1 q w2
          = (.error OsError.ErrInvalid, (Write h p w).2.1, w2)) := by
  refine ⟨?_, ?_, ?_⟩
  · intro hnd
    have hno : doRollover h w = (h, w) := by
      simp only [doRollover, fdStat, hfd, hc]
      simp only [Bool.false_eq_true, if_false]
      by_cases h1 : h.maxBytes ≤ 0
      · simp [h1]
      · by_cases h2 : (c.length : Int) < h.maxBytes
        · simp [h1, h2]
        · by_cases h3 : h.rotateCount > 0
          · exact absurd ⟨by omega, by omega, h3⟩ hnd
          · simp [h1, h2, h3]
    simp [Write, hno, fdWrite, hfd, hc]
  all_goals
    rintro ⟨hM, hfull, hR⟩
    have hdo : doRollover h w =
        ({ h with fd := (osOpenFile h.fileName
              (osRename h.fileName (backupName h.fileName 1)
                (shiftBackups h.fileName (h.rotateCount - 1).toNat w)).2).1 },
          (osOpenFile h.fileName
              (osRename h.fileName (backupName h.fileName 1)
                (shiftBackups h.fileName (h.rotateCount - 1).toNat w)).2).2) := by
      simp only [doRollover, fdStat, hfd, hc]
      simp only [Bool.false_eq_true, if_false]
      rw [if_neg (not_le.mpr hM), if_neg (not_lt.mpr hfull), if_pos hR]
    have hne : h.fileName ≠ backupName h.fileName 1 := (backupName_ne_self _ 1).symm
    have hk : (h.rotateCount - 1).toNat = h.rotateCount.toNat - 1 := by omega
    have hact : (shiftBackups h.fileName (h.rotateCount - 1).toNat w).files h.fileName
        = some c := by rw [shiftBackups_files_active]; exact hc
    have hf1 : (shiftBackups h.fileName (h.rotateCount - 1).toNat w).faults[0]?
        = w.faults[h.rotateCount.toNat - 1]? := by
      rw [shiftBackups_faults_drop, hk]; simp
    have hf2 : (osRename h.fileName (backupName h.fileName 1)
        (shiftBackups h.fileName (h.rotateCount - 1).toNat w)).2.faults[0]?
        = w.faults[h.rotateCount.toNat]? := by
      rw [osRename_faults_drop, shiftBackups_faults_drop, List.drop_drop]
      have : (h.rotateCount - 1).toNat + 1 = h.rotateCount.toNat := by omega
      rw [this]
      simp
    obtain ⟨r1, r2, _⟩ := osRename_spec h.fileName (backupName h.fileName 1)
      (shiftBackups h.fileName (h.rotateCount - 1).toNat w)
    rw [hf1] at r1 r2
    obtain ⟨o1, o2⟩ := osOpenFile_spec h.fileName
      (osRename h.fileName (backupName h.fileName 1)
        (shiftBackups h.fileName (h.rotateCount - 1).toNat w)).2
    rw [hf2] at o1 o2
    generalize hs : shiftBackups h.fileName (h.rotateCount - 1).toNat w = w1
      at hdo hact r1 r2 o1 o2
    generalize hw2 : (osRename h.fileName (backupName h.fileName 1) w1).2 = w2
      at hdo r1 r2 o1 o2
    intro hflt
  · obtain ⟨p1, p2⟩ := o2 hflt
    have hopen : (osOpenFile h.fileName w2).2.files h.fileName
        = some (if w.faults[h.rotateCount.toNat - 1]? = some true then c else []) := by
      rw [p2]
      by_cases hrf : w.faults[h.rotateCount.toNat - 1]? = some true
      · rw [r1 hrf, hact]; simp [hrf]
      · rw [(r2 hrf c hact hne).1]; simp [hrf]
    have hfdh : ({ h with fd := some { closed := false } } : RotatingFileHandler) = h := by
      obtain ⟨fd, f, M, R⟩ := h
      simp only at hfd
      subst hfd
      rfl
    simp only [Write, hdo, p1, fdWrite, Bool.false_eq_true, if_false, hopen]
    refine ⟨trivial, hfdh, by simp, ?_⟩
    intro hrf
    have hb : (osOpenFile h.fileName w2).2.files (backupName h.fileName 1) = some c := by
      have hdst := (r2 hrf c hact hne).2
      unfold osOpenFile
      obtain ⟨_, _, n3⟩ := nextFault_spec w2
      cases hn : w2.nextFault with
      | mk fault w3 =>
        rw [hn] at n3
        simp only at n3 ⊢
        cases fault with
        | true => simp only [if_true]; rw [n3]; exact hdst
        | false =>
          simp only [Bool.false_eq_true, if_false]
          cases hx : w3.files h.fileName with
          | none => simp [backupName_ne_self, n3, hdst]
          | some y => simp only [n3]; exact hdst
    simp [backupName_ne_self, hb]
  · obtain ⟨p1, p2⟩ := o1 hflt
    have hfdn : (Write h p w).2.1 = { h with fd := none } := by
      simp [Write, hdo, p1]
    refine ⟨by simp [Write, hdo, p1, fdWrite], hfdn, ?_, ?_⟩
    · simp only [Write, hdo, p1, fdWrite, p2]
      by_cases hrf : w.faults[h.rotateCount.toNat - 1]? = some true
      · rw [r1 hrf, hact]; simp [hrf]
      · rw [(r2 hrf c hact hne).1]; simp [hrf]
    · intro q w3
      rw [hfdn]
      exact Write_of_nil _ q w3 rfl

/-- Witness of the amended C7 on `app.log` with three bytes, `maxBytes = 2` and two
backups: the rename of the first backup fails, the rename of the active file
succeeds, the reopen succeeds; and the same with the reopen failing. -/
theorem C7_rename_failures_swallowed_witness :
    ((Write (freshHandler "app.log" 2 2) [7]
        { sampleWorld with faults := [true, false] }).1 = .ok [7].length ∧
      (Write (freshHandler "app.log" 2 2) [7]
        { sampleWorld with faults := [true, false] }).2.2.files
          (freshHandler "app.log" 2 2).fileName
        = some ((if ([true, false] : List Bool)[(2 : Int).toNat - 1]? = some true
            then [1, 2, 3] else []) ++ [7])) ∧
    ((Write (freshHandler "app.log" 2 2) [7]
        { sampleWorld with faults := [true, false, true] }).1
        = .error OsError.ErrInvalid) :=
  have h1 := (C7_rename_failures_swallowed (freshHandler "app.log" 2 2)
    { sampleWorld with faults := [true, false] } [7] [1, 2, 3] rfl rfl).2.1
    (by decide) (by decide)
  have h2 := (C7_rename_failures_swallowed (freshHandler "app.log" 2 2)
    { sampleWorld with faults := [true, false, true] } [7] [1, 2, 3] rfl rfl).2.2
    (by decide) (by decide)
  ⟨⟨h1.1, h1.2.2.1⟩, h2.1⟩

/-- Claim C9 as stated fails: on a freshly opened handler the first `Close` succeeds
and the second returns the error of closing a closed file; likewise for `Stop` after
a start-up with a log file. -/
theorem C9_second_close_returns_error :
    (Close (freshHandler "app.log" 2 1)).1 = none ∧
    (Close (Close (freshHandler "app.log" 2 1)).2).1 = some OsError.ErrClosed ∧
    (Stop (StartEx goEnv LevelInfo "app.log" 2 1 (Proc.init (freshWorld "app.log")))).1
      = none ∧
    (Stop (Stop (StartEx goEnv LevelInfo "app.log" 2 1
      (Proc.init (freshWorld "app.log")))).2).1 = some OsError.ErrClosed := by
  decide

/-- Claim C9, amended.  After a successful `Close`, a second `Close` leaves the
handler as it is (the file system is not touched by `Close` at all) and returns no
error exactly when the handler has no handle (`fd` is nil); when it has one, the
second `Close` returns the error of closing a closed file.  The same holds for two
calls of `Stop`: the second leaves the process state as it is and returns no error
exactly when no log file is configured or its handler has no handle. -/
theorem C9_second_close_amended (h : RotatingFileHandler) (s : Proc) :
    ((Close h).1 = none →
      (Close (Close h).2).2 = (Close h).2 ∧
      (h.fd = none → (Close (Close h).2).1 = none) ∧
      (h.fd ≠ none → (Close (Close h).2).1 = some OsError.ErrClosed)) ∧
    ((Stop s).1 = none →
      (Stop (Stop s).2).2 = (Stop s).2 ∧
      (Stop (Stop s).2).2.world = s.world ∧
      ((s.Logger.LogFile = none ∨ ∃ g, s.Logger.LogFile = some g ∧ g.fd = none) →
        (Stop (Stop s).2).1 = none) ∧
      (∀ g, s.Logger.LogFile = some g → g.fd ≠ none →
        (Stop (Stop s).2).1 = some OsError.ErrClosed)) := by
  have key : ∀ g : RotatingFileHandler, (Close g).1 = none →
      (Close (Close g).2).2 = (Close g).2 ∧
      (g.fd = none → (Close (Close g).2).1 = none) ∧
      (g.fd ≠ none → (Close (Close g).2).1 = some OsError.ErrClosed) := by
    intro g hg
    obtain ⟨fd, f, M, R⟩ := g
    cases fd with
    | none => simp [Close]
    | some x =>
      obtain ⟨cl⟩ := x
      cases cl with
      | true => simp [Close, fdClose] at hg
      | false => simp [Close, fdClose]
  refine ⟨key h, ?_⟩
  intro hs
  cases hL : s.Logger.LogFile with
  | none => simp [Stop, hL]
  | some g =>
    have hg : (Close g).1 = none := by simpa [Stop, hL] using hs
    obtain ⟨k1, k2, k3⟩ := key g hg
    refine ⟨?_, ?_, ?_, ?_⟩
    · simp [Stop, hL, k1]
    · simp [Stop, hL]
    · rintro (h0 | ⟨g2, h1, h2⟩)
      · simp at h0
      · have : g2 = g := by simpa using h1.symm
        subst this
        simpa [Stop, hL] using k2 h2
    · intro g2 h1 h2
      have : g2 = g := by simpa using h1.symm
      subst this
      simpa [Stop, hL] using k3 h2

/-- Witness of the amended C9 on a freshly opened handler and on a process started
with a log file. -/
theorem C9_second_close_amended_witness :
    (Close (Close (freshHandler "app.log" 2 1)).2).2 = (Close (freshHandler "app.log" 2 1)).2 ∧
    (Close (Close (freshHandler "app.log" 2 1)).2).1 = some OsError.ErrClosed :=
  have h := (C9_second_close_amended (freshHandler "app.log" 2 1)
    (Proc.init (freshWorld "app.log"))).1 (by decide)
  ⟨h.1, h.2.2 (by decide)⟩

/-! ## The process: start-up and logging calls -/

theorem Runs_self (s : Proc) (h : s.exit = none) : Runs s.Logger s :=
  ⟨h, rfl, rfl, rfl, rfl, rfl, rfl, rfl⟩

/-- A write to a logger's destination: the process stays alive, the loggers stay, and
the trace grows by the event of that destination. -/
theorem Writer_write_spec (L : mlog) (out : Writer) (line : String) (s : Proc)
    (hs : Runs L s) (hfile : out = Writer.fileHandle → L.LogFile.isSome = true) :
    Runs L (out.write line s) ∧
    (out.write line s).trace = s.trace ++ out.events line ∧
    (out ≠ Writer.fileHandle → (out.write line s).world = s.world) := by
  obtain ⟨h0, h1, h2, h3, h4, h5, h6, h7⟩ := hs
  cases out with
  | Discard => exact ⟨⟨h0, h1, h2, h3, h4, h5, h6, h7⟩, by simp [Writer.write, Writer.events], fun _ => rfl⟩
  | Stdout =>
    exact ⟨⟨h0, h1, h2, h3, h4, h5, h6, h7⟩, by simp [Writer.write, Writer.events, Proc.emit], fun _ => rfl⟩
  | Stderr =>
    exact ⟨⟨h0, h1, h2, h3, h4, h5, h6, h7⟩, by simp [Writer.write, Writer.events, Proc.emit], fun _ => rfl⟩
  | fileHandle =>
    have hsome := hfile rfl
    rw [← h7] at hsome
    cases hL : s.Logger.LogFile with
    | none => rw [hL] at hsome; simp at hsome
    | some g =>
      rw [hL] at h7
      refine ⟨⟨?_, ?_, ?_, ?_, ?_, ?_, ?_, ?_⟩, ?_, fun hne => absurd rfl hne⟩ <;>
        simp [Writer.write, hL, Proc.emit, Writer.events, h0, h1, h2, h3, h4, h5, h6, ← h7]

/-- The effect of `Output` on a logger of a well-formed package state. -/
theorem Output_spec (E : Env) (L : mlog) (lg : GoLogger) (msg : String) (s : Proc)
    (hs : Runs L s) (hfile : lg.out = Writer.fileHandle → L.LogFile.isSome = true) :
    Runs L (Output E (some lg) msg s) ∧
    (Output E (some lg) msg s).trace
      = s.trace ++ lg.out.events (formatLine lg (E.header s.trace.length) msg) := by
  have := Writer_write_spec L lg.out (formatLine lg (E.header s.trace.length) msg) s hs hfile
  exact ⟨this.1, this.2.1⟩

theorem andThen_of_alive (s : Proc) (f : Proc → Proc) (h : s.exit = none) :
    s.andThen f = f s := by
  simp [Proc.andThen, h]

theorem fmtPrintln_spec (L : mlog) (tag msg : String) (s : Proc) (hs : Runs L s) :
    Runs L (fmtPrintln tag msg s) ∧
    (fmtPrintln tag msg s).trace = s.trace ++ [Event.stdout (Println [tag, msg])] :=
  ⟨hs, rfl⟩

/-- A plain logging call: the structured line goes to the logger's destination, then
the echo goes to the console. -/
theorem logCall_spec (E : Env) (L : mlog) (lg : GoLogger) (msg tag echo : String)
    (s : Proc) (hs : Runs L s)
    (hfile : lg.out = Writer.fileHandle → L.LogFile.isSome = true) :
    Runs L ((Output E (some lg) msg s).andThen (fmtPrintln tag echo)) ∧
    ((Output E (some lg) msg s).andThen (fmtPrintln tag echo)).trace
      = s.trace ++ lg.out.events (formatLine lg (E.header s.trace.length) msg)
          ++ [Event.stdout (Println [tag, echo])] := by
  obtain ⟨o1, o2⟩ := Output_spec E L lg msg s hs hfile
  rw [andThen_of_alive _ _ o1.1]
  obtain ⟨p1, p2⟩ := fmtPrintln_spec L tag echo _ o1
  exact ⟨p1, by rw [p2, o2]⟩

theorem Writer_events_length (out : Writer) (line : String) :
    (out.events line).length ≤ 1 := by
  cases out <;> simp [Writer.events]


/-! ### Start-up -/

theorem doLogging_console (E : Env) (T : LogLevel) (M R : Int) (s : Proc) :
    doLogging E T "" M R s =
      { s with Logger := mkLogger T (levelSwitch T Handles.discard) none } := by
  simp [doLogging]

/-- With a file name, `doLogging` either creates the handler and assigns the logger
or terminates the process with exit code 1, and which of the two does not depend on
the level. -/
theorem doLogging_file (E : Env) (T : LogLevel) (fileName : String) (M R : Int) (s : Proc)
    (hf : fileName ≠ "") :
    ((doLogging E T fileName M R s).exit = some 1 ∧
      (NewRotatingFileHandler fileName M R s.world).1.toOption = none) ∨
    (∃ g w1, NewRotatingFileHandler fileName M R s.world = (.ok g, w1) ∧
      doLogging E T fileName M R s =
        { s with world := w1,
                 Logger := mkLogger T (redirectToFile (levelSwitch T Handles.discard))
                   (some g) }) := by
  unfold doLogging
  simp only [hf, ne_eq, not_false_eq_true, if_true]
  cases hn : NewRotatingFileHandler fileName M R s.world with
  | mk r w1 =>
    cases r with
    | error e => left; simp [logFatal, osExit, Except.toOption]
    | ok g => right; exact ⟨g, w1, rfl, rfl⟩

theorem levelSwitch_no_file (T : LogLevel) :
    (levelSwitch T Handles.discard).traceHandle ≠ Writer.fileHandle ∧
    (levelSwitch T Handles.discard).infoHandle ≠ Writer.fileHandle ∧
    (levelSwitch T Handles.discard).warnHandle ≠ Writer.fileHandle ∧
    (levelSwitch T Handles.discard).errorHandle ≠ Writer.fileHandle := by
  unfold levelSwitch
  split
  · simp [caseLevelTrace, caseLevelInfo, caseLevelWarn, caseLevelError, Handles.discard]
  · split
    · simp [caseLevelInfo, caseLevelWarn, caseLevelError, Handles.discard]
    · split
      · simp [caseLevelWarn, caseLevelError, Handles.discard]
      · split
        · simp [caseLevelError, Handles.discard]
        · simp [Handles.discard]

/-- If the process is alive after `doLogging`, it was alive before, the package state
is well formed, and the same start-up with any other level is alive too. -/
theorem doLogging_alive (E : Env) (T : LogLevel) (fileName : String) (M R : Int) (s : Proc)
    (h : (doLogging E T fileName M R s).exit = none) :
    s.exit = none ∧
    (doLogging E T fileName M R s).Logger.WellFormed ∧
    (doLogging E T fileName M R s).trace = s.trace ∧
    ((doLogging E T fileName M R s).Logger.LogFile.isSome = true ↔ fileName ≠ "") ∧
    (∃ hs, (doLogging E T fileName M R s).Logger = mkLogger T hs
        (doLogging E T fileName M R s).Logger.LogFile ∧
      hs = if fileName ≠ "" then redirectToFile (levelSwitch T Handles.discard)
           else levelSwitch T Handles.discard) ∧
    ∀ T2, (doLogging E T2 fileName M R s).exit = none ∧
      (doLogging E T2 fileName M R s).trace = s.trace := by
  by_cases hf : fileName = ""
  · subst hf
    rw [doLogging_console] at h ⊢
    obtain ⟨n1, n2, n3, n4⟩ := levelSwitch_no_file T
    refine ⟨h, ?_, rfl, by simp [mkLogger], ⟨_, rfl, by simp⟩, ?_⟩
    · intro l hl
      simp only [mkLogger, List.mem_cons, List.mem_singleton, List.not_mem_nil,
        or_false] at hl
      rcases hl with rfl | rfl | rfl | rfl | rfl <;>
        exact ⟨_, rfl, fun hx => absurd hx (by assumption)⟩
    · intro T2
      rw [doLogging_console]
      exact ⟨h, rfl⟩
  · rcases doLogging_file E T fileName M R s hf with ⟨h1, _⟩ | ⟨g, w1, hn, hd⟩
    · rw [h1] at h; simp at h
    · rw [hd] at h ⊢
      refine ⟨h, ?_, rfl, by simp [mkLogger, hf], ⟨_, rfl, by simp [hf]⟩, ?_⟩
      · intro l hl
        simp only [mkLogger, List.mem_cons, List.mem_singleton, List.not_mem_nil,
          or_false] at hl
        rcases hl with rfl | rfl | rfl | rfl | rfl <;> exact ⟨_, rfl, fun _ => rfl⟩
      · intro T2
        rcases doLogging_file E T2 fileName M R s hf with ⟨_, h2⟩ | ⟨g2, w2, hn2, hd2⟩
        · rw [hn] at h2; simp [Except.toOption] at h2
        · rw [hd2]; exact ⟨h, rfl⟩


/-! ### Calls after start-up -/

theorem WellFormed_get (L : mlog) (hL : L.WellFormed) :
    (∃ lg, L.Trace = some lg ∧ (lg.out = Writer.fileHandle → L.LogFile.isSome = true)) ∧
    (∃ lg, L.Info = some lg ∧ (lg.out = Writer.fileHandle → L.LogFile.isSome = true)) ∧
    (∃ lg, L.Warning = some lg ∧ (lg.out = Writer.fileHandle → L.LogFile.isSome = true)) ∧
    (∃ lg, L.Error = some lg ∧ (lg.out = Writer.fileHandle → L.LogFile.isSome = true)) ∧
    (∃ lg, L.Fatal = some lg ∧ (lg.out = Writer.fileHandle → L.LogFile.isSome = true)) :=
  ⟨hL _ (by simp), hL _ (by simp), hL _ (by simp), hL _ (by simp), hL _ (by simp)⟩

theorem Stop_spec (L : mlog) (s : Proc) (hs : Runs L s) :
    Runs L (Stop s).2 ∧ (Stop s).2.trace = s.trace := by
  obtain ⟨h0, h1, h2, h3, h4, h5, h6, h7⟩ := hs
  cases hL : s.Logger.LogFile with
  | none => simp [Stop, hL, Runs, h0, h1, h2, h3, h4, h5, h6, ← h7]
  | some g => simp [Stop, hL, Runs, h0, h1, h2, h3, h4, h5, h6, ← h7]

theorem Sync_spec (L : mlog) (s : Proc) (hs : Runs L s) :
    Runs L (Sync s) ∧
    (L.LogFile.isSome = false → (Sync s).trace = s.trace) ∧
    (L.LogFile.isSome = true → ∃ r, (Sync s).trace = s.trace ++ [Event.sync r]) := by
  obtain ⟨h0, h1, h2, h3, h4, h5, h6, h7⟩ := hs
  cases hL : s.Logger.LogFile with
  | none =>
    rw [hL] at h7
    refine ⟨?_, ?_, ?_⟩
    · simp [Sync, hL, Runs, h0, h1, h2, h3, h4, h5, h6, ← h7]
    · intro _; simp [Sync, hL]
    · intro hx; rw [← h7] at hx; simp at hx
  | some g =>
    rw [hL] at h7
    refine ⟨?_, ?_, ?_⟩
    · simp [Sync, hL, Runs, Proc.emit, h0, h1, h2, h3, h4, h5, h6, ← h7]
    · intro hx; rw [← h7] at hx; simp at hx
    · intro _; exact ⟨fdSync g.fd, by simp [Sync, hL, Proc.emit]⟩

/-- The body shared by `Fatal`, `Fatalf` and `FatalIfError`: echo, structured line on
the `Fatal` logger, `Sync`, `os.Exit(255)`. -/
theorem fatal_spec (E : Env) (L : mlog) (lg : GoLogger) (echo msg : String) (s : Proc)
    (hs : Runs L s) (hF : L.Fatal = some lg)
    (hfile : lg.out = Writer.fileHandle → L.LogFile.isSome = true) :
    ((((fmtPrintln " - [FATAL]: " echo s).andThen
        (fun s1 => Output E s1.Logger.Fatal msg s1)).andThen Sync).andThen
        (osExit 255)).exit = some 255 ∧
    ∃ syncs : List Event,
      ((((fmtPrintln " - [FATAL]: " echo s).andThen
        (fun s1 => Output E s1.Logger.Fatal msg s1)).andThen Sync).andThen
        (osExit 255)).trace
        = s.trace ++ [Event.stdout (Println [" - [FATAL]: ", echo])]
            ++ lg.out.events (formatLine lg (E.header (s.trace.length + 1)) msg)
            ++ syncs ++ [Event.exit 255] ∧
      (L.LogFile.isSome = false → syncs = []) ∧
      (L.LogFile.isSome = true → ∃ r, syncs = [Event.sync r]) := by
  obtain ⟨p1, p2⟩ := fmtPrintln_spec L " - [FATAL]: " echo s hs
  rw [andThen_of_alive _ _ p1.1]
  have hlg : (fmtPrintln " - [FATAL]: " echo s).Logger.Fatal = some lg := by
    rw [p1.2.2.2.2.2.1, hF]
  simp only [hlg]
  obtain ⟨o1, o2⟩ := Output_spec E L lg msg _ p1 hfile
  rw [andThen_of_alive _ _ o1.1]
  obtain ⟨y1, y2, y3⟩ := Sync_spec L _ o1
  rw [andThen_of_alive _ _ y1.1]
  refine ⟨by simp [osExit], ?_⟩
  cases hLf : L.LogFile.isSome with
  | false =>
    refine ⟨[], ?_, fun _ => rfl, fun hx => by simp at hx⟩
    simp only [osExit, Proc.emit, y2 hLf, o2, p2]
    simp
  | true =>
    obtain ⟨r, hr⟩ := y3 hLf
    refine ⟨[Event.sync r], ?_, fun hx => by simp at hx, fun _ => ⟨r, rfl⟩⟩
    simp only [osExit, Proc.emit, hr, o2, p2]
    simp

/-- A call other than `Start`, `StartEx` and the fatal ones keeps the process alive
with the same loggers. -/
theorem exec_nonfatal (E : Env) (L : mlog) (hL : L.WellFormed) (c : Call) (s : Proc)
    (hs : Runs L s) (hc : c.isStart = false) (hnf : c.isFatal = false) :
    Runs L (exec E c s) := by
  obtain ⟨⟨lt, t1, t2⟩, ⟨li, i1, i2⟩, ⟨lw, w1, w2⟩, ⟨le, e1, e2⟩, _⟩ := WellFormed_get L hL
  have g := hs
  obtain ⟨_, g1, g2, g3, g4, _, _, _⟩ := g
  cases c with
  | Start _ _ => simp [Call.isStart] at hc
  | StartEx _ _ _ _ => simp [Call.isStart] at hc
  | Stop => exact (Stop_spec L s hs).1
  | Sync => exact (Sync_spec L s hs).1
  | Trace format a =>
    simp only [exec, Trace, g1, t1]
    exact (logCall_spec E L lt _ _ _ s hs t2).1
  | Info format a =>
    simp only [exec, Info, g2, i1]
    exact (logCall_spec E L li _ _ _ s hs i2).1
  | Warning format a =>
    simp only [exec, Warning, g3, w1]
    exact (logCall_spec E L lw _ _ _ s hs w2).1
  | Error err =>
    simp only [exec, Error, g4, e1]
    exact (logCall_spec E L le _ _ _ s hs e2).1
  | IfError err =>
    simp only [exec, IfError, g4, e1]
    split
    · exact (logCall_spec E L le _ _ _ s hs e2).1
    · exact hs
  | Fatal _ => simp [Call.isFatal] at hnf
  | Fatalf _ _ => simp [Call.isFatal] at hnf
  | FatalIfError err =>
    simp only [Call.isFatal, decide_eq_false_iff_not, ne_eq, not_not] at hnf
    simp [exec, FatalIfError, hnf, hs]

/-- A fatal call terminates the process with exit code 255. -/
theorem exec_fatal (E : Env) (L : mlog) (hL : L.WellFormed) (c : Call) (s : Proc)
    (hs : Runs L s) (hf : c.isFatal = true) : (exec E c s).exit = some 255 := by
  obtain ⟨_, _, _, _, ⟨lf, f1, f2⟩⟩ := WellFormed_get L hL
  cases c with
  | Fatal a => exact (fatal_spec E L lf _ _ s hs f1 f2).1
  | Fatalf format a => exact (fatal_spec E L lf _ _ s hs f1 f2).1
  | FatalIfError err =>
    simp only [Call.isFatal, decide_eq_true_eq] at hf
    simp only [exec, FatalIfError, hf, ne_eq, not_false_eq_true, if_true]
    exact (fatal_spec E L lf _ _ s hs f1 f2).1
  | _ => simp [Call.isFatal] at hf

theorem run_of_exited (E : Env) (calls : List Call) (s : Proc) (h : s.exit.isSome = true) :
    run E calls s = s := by
  cases calls with
  | nil => rfl
  | cons c cs => simp [run, h]

/-- A run of calls without `Start` from a started process stays alive exactly if no
call is fatal, and then keeps the loggers. -/
theorem run_alive (E : Env) (L : mlog) (hL : L.WellFormed) (calls : List Call) :
    ∀ s : Proc, Runs L s → (∀ c ∈ calls, c.isStart = false) →
      ((run E calls s).exit = none ↔ ∀ c ∈ calls, c.isFatal = false) ∧
      ((run E calls s).exit = none → Runs L (run E calls s)) := by
  induction calls with
  | nil =>
    intro s hs _
    exact ⟨⟨fun _ c hc => absurd hc (List.not_mem_nil c), fun _ => hs.1⟩, fun _ => hs⟩
  | cons c cs ih =>
    intro s hs hst
    have hrun : run E (c :: cs) s = run E cs (exec E c s) := by simp [run, hs.1]
    rw [hrun]
    cases hf : c.isFatal with
    | true =>
      have hx := exec_fatal E L hL c s hs hf
      rw [run_of_exited E cs _ (by simp [hx])]
      refine ⟨⟨fun h => ?_, fun h => ?_⟩, fun h => ?_⟩
      · rw [hx] at h; simp at h
      · have := h c (List.mem_cons_self _ _); rw [hf] at this; simp at this
      · rw [hx] at h; simp at h
    | false =>
      have hr := exec_nonfatal E L hL c s hs (hst c (List.mem_cons_self _ _)) hf
      obtain ⟨i1, i2⟩ := ih _ hr (fun d hd => hst d (List.mem_cons_of_mem _ hd))
      refine ⟨⟨fun h d hd => ?_, fun h => ?_⟩, i2⟩
      · rcases List.mem_cons.mp hd with rfl | hd2
        · exact hf
        · exact i1.mp h d hd2
      · exact i1.mpr (fun d hd => h d (List.mem_cons_of_mem _ hd))


/-! ### Claims C8 and C1: destinations assigned at start-up -/

/-- Claim C8.  `StartEx(level, "", maxBytes, rotateCount)`, for every level and every
`maxBytes` and `rotateCount`: the file system is untouched (no file is created or
opened), `Logger.LogFile` is nil, the process is not terminated and nothing is
printed, and every logger writes to stdout, stderr or the discard sink.  With
`LevelError` the loggers of `Trace`, `Info` and `Warning` discard and those of
`Error` and `Fatal` write to stderr. -/
theorem C8_empty_path_console_only (E : Env) (T : LogLevel) (M R : Int) (s : Proc) :
    (StartEx E T "" M R s).world = s.world ∧
    (StartEx E T "" M R s).Logger.LogFile = none ∧
    (StartEx E T "" M R s).exit = s.exit ∧
    (StartEx E T "" M R s).trace = s.trace ∧
    (∀ l ∈ [(StartEx E T "" M R s).Logger.Trace, (StartEx E T "" M R s).Logger.Info,
        (StartEx E T "" M R s).Logger.Warning, (StartEx E T "" M R s).Logger.Error,
        (StartEx E T "" M R s).Logger.Fatal],
      ∃ lg, l = some lg ∧
        (lg.out = Writer.Discard ∨ lg.out = Writer.Stdout ∨ lg.out = Writer.Stderr)) ∧
    (T = LevelError →
      (StartEx E T "" M R s).Logger.Trace
        = some { out := Writer.Discard, pfx := " - [TRACE]: ", flag := DefaultFlags } ∧
      (StartEx E T "" M R s).Logger.Info
        = some { out := Writer.Discard, pfx := " - [INFO]: ", flag := DefaultFlags } ∧
      (StartEx E T "" M R s).Logger.Warning
        = some { out := Writer.Discard, pfx := " - [WARN]: ", flag := DefaultFlags } ∧
      (StartEx E T "" M R s).Logger.Error
        = some { out := Writer.Stderr, pfx := " - [ERROR]: ", flag := DefaultFlags } ∧
      (StartEx E T "" M R s).Logger.Fatal
        = some { out := Writer.Stderr, pfx := " - [FATAL]: ", flag := DefaultFlags }) := by
  unfold StartEx
  rw [doLogging_console]
  obtain ⟨n1, n2, n3, n4⟩ := levelSwitch_no_file T
  refine ⟨rfl, rfl, rfl, rfl, ?_, ?_⟩
  · have hw : ∀ x : Writer, x ≠ Writer.fileHandle →
        x = Writer.Discard ∨ x = Writer.Stdout ∨ x = Writer.Stderr := by
      intro x hx; cases x <;> simp at hx ⊢
    intro l hl
    simp only [mkLogger, List.mem_cons, List.mem_singleton, List.not_mem_nil,
      or_false] at hl
    rcases hl with rfl | rfl | rfl | rfl | rfl
    · exact ⟨_, rfl, hw _ n1⟩
    · exact ⟨_, rfl, hw _ n2⟩
    · exact ⟨_, rfl, hw _ n3⟩
    · exact ⟨_, rfl, hw _ n4⟩
    · exact ⟨_, rfl, hw _ n4⟩
  · intro hT
    subst hT
    simp [mkLogger, levelSwitch, caseLevelError, Handles.discard, LevelError, LevelTrace,
      LevelInfo, LevelWarn]

/-- The handles after the switch and the redirection, for the four levels. -/
theorem handle_of_severity (T : LogLevel) (S : Severity) (fileName : String)
    (hT : T = LevelTrace ∨ T = LevelInfo ∨ T = LevelWarn ∨ T = LevelError) :
    ∃ lg, S.logger (mkLogger T (if fileName ≠ "" then
        redirectToFile (levelSwitch T Handles.discard)
        else levelSwitch T Handles.discard) none) = some lg ∧
      lg.out = (if S.level < T then Writer.Discard
                else if fileName ≠ "" then Writer.fileHandle else S.console) := by
  by_cases hf : fileName = ""
  · rcases hT with rfl | rfl | rfl | rfl <;> cases S <;>
      simp [hf, Severity.logger, mkLogger, levelSwitch, caseLevelTrace, caseLevelInfo,
        caseLevelWarn, caseLevelError, Handles.discard, Severity.level, Severity.console,
        LevelTrace, LevelInfo, LevelWarn, LevelError]
  · rcases hT with rfl | rfl | rfl | rfl <;> cases S <;>
      simp [hf, Severity.logger, mkLogger, levelSwitch, caseLevelTrace, caseLevelInfo,
        caseLevelWarn, caseLevelError, Handles.discard, Severity.level, Severity.console,
        LevelTrace, LevelInfo, LevelWarn, LevelError, redirectToFile]


theorem Severity_logger_mkLogger (S : Severity) (T : LogLevel) (hs : Handles)
    (fh : Option RotatingFileHandler) :
    S.logger (mkLogger T hs fh) = S.logger (mkLogger T hs none) := by
  cases S <;> rfl

/-- When start-up succeeds: always without a file name; with one, when `maxBytes` is
positive and the open of the file is not hit by a failure. -/
theorem doLogging_alive_of (E : Env) (T : LogLevel) (fileName : String) (M R : Int)
    (s : Proc) (hs : s.exit = none)
    (hok : fileName = "" ∨ (0 < M ∧ s.world.faults.head? ≠ some true)) :
    (doLogging E T fileName M R s).exit = none := by
  by_cases hf : fileName = ""
  · subst hf; rw [doLogging_console]; exact hs
  · rcases hok with h0 | ⟨hM, hfault⟩
    · exact absurd h0 hf
    · rcases doLogging_file E T fileName M R s hf with ⟨_, h2⟩ | ⟨g, w1, _, hd⟩
      · exfalso
        revert h2
        simp only [NewRotatingFileHandler, mkdirOf, not_le.mpr hM, if_false, osOpenFile,
          World.nextFault]
        cases hfl : s.world.faults with
        | nil =>
          simp only []
          cases s.world.files fileName <;> simp [Except.toOption]
        | cons b rest =>
          cases b with
          | true => rw [hfl] at hfault; simp at hfault
          | false =>
            simp only []
            cases s.world.files fileName <;> simp [Except.toOption]
      · rw [hd]; exact hs

/-- Claim C1.  For a level `T` among the four level constants, a severity `S`, any
file name and any configuration with which `doLogging` returns: the logger of `S`
writes to the discard sink if `S` is less severe than `T`, otherwise to the rotating
file writer if the file name is not empty, otherwise to stderr for `Error` and to
stdout for `Trace`, `Info`, `Warn`.  So the destination is not the discard sink
exactly if `S ≥ T`, and `Output` on that logger adds the structured line to the file
or console stream exactly in that case and adds nothing otherwise. -/
theorem C1_destination_by_threshold (E : Env) (T : LogLevel) (S : Severity)
    (fileName : String) (M R : Int) (s : Proc) (msg : String)
    (hT : T = LevelTrace ∨ T = LevelInfo ∨ T = LevelWarn ∨ T = LevelError)
    (halive : (doLogging E T fileName M R s).exit = none) :
    ∃ lg, S.logger (doLogging E T fileName M R s).Logger = some lg ∧
      lg.out = (if S.level < T then Writer.Discard
                else if fileName ≠ "" then Writer.fileHandle else S.console) ∧
      (lg.out ≠ Writer.Discard ↔ T ≤ S.level) ∧
      (Output E (S.logger (doLogging E T fileName M R s).Logger) msg
          (doLogging E T fileName M R s)).trace
        = (doLogging E T fileName M R s).trace ++
          (if S.level < T then []
           else if fileName ≠ "" then
             [Event.fileWrite (toBytes (formatLine lg
               (E.header (doLogging E T fileName M R s).trace.length) msg))]
           else if S = Severity.Error then
             [Event.stderr (formatLine lg
               (E.header (doLogging E T fileName M R s).trace.length) msg)]
           else
             [Event.stdout (formatLine lg
               (E.header (doLogging E T fileName M R s).trace.length) msg)]) := by
  obtain ⟨_, hwf, _, hfile, ⟨hs, hlog, hhs⟩, _⟩ := doLogging_alive E T fileName M R s halive
  obtain ⟨lg, h1, h2⟩ := handle_of_severity T S fileName hT
  have hlg : S.logger (doLogging E T fileName M R s).Logger = some lg := by
    rw [hlog, Severity_logger_mkLogger, hhs]; exact h1
  refine ⟨lg, hlg, h2, ?_, ?_⟩
  · rw [h2]
    by_cases hlt : S.level < T
    · simp [hlt]
    · have hle : T ≤ S.level := not_lt.mp hlt
      by_cases hf : fileName = ""
      · simp only [hlt, hf, if_false, ne_eq, not_true_eq_false]
        cases S <;> simp [Severity.console] <;> exact hle
      · simp only [hlt, hf, if_false, ne_eq, not_false_eq_true, if_true]
        simp [hle]
  · have hfl : lg.out = Writer.fileHandle →
        (doLogging E T fileName M R s).Logger.LogFile.isSome = true := by
      intro hx
      rw [h2] at hx
      by_cases hlt : S.level < T
      · simp [hlt] at hx
      · by_cases hf : fileName = ""
        · simp only [hlt, hf, if_false, ne_eq, not_true_eq_false] at hx
          cases S <;> simp [Severity.console] at hx
        · exact hfile.mpr hf
    rw [hlg, (Output_spec E _ lg msg _ (Runs_self _ halive) hfl).2, h2]
    by_cases hlt : S.level < T
    · simp [hlt, Writer.events]
    · by_cases hf : fileName = ""
      · cases S <;> simp [hlt, hf, Writer.events, Severity.console]
      · simp [hlt, hf, Writer.events]

/-- Witness of C1: level `LevelWarn`, severity `Info`, log file `app.log`. -/
theorem C1_destination_by_threshold_witness :
    ∃ lg, Severity.Info.logger (doLogging goEnv LevelWarn "app.log" 5 3
        (Proc.init (freshWorld "app.log"))).Logger = some lg ∧
      lg.out = (if Severity.Info.level < LevelWarn then Writer.Discard
                else if "app.log" ≠ "" then Writer.fileHandle
                else Severity.Info.console) ∧
      (lg.out ≠ Writer.Discard ↔ LevelWarn ≤ Severity.Info.level) :=
  have ⟨lg, h1, h2, h3, _⟩ := C1_destination_by_threshold goEnv LevelWarn Severity.Info
    "app.log" 5 3 (Proc.init (freshWorld "app.log")) "up"
    (Or.inr (Or.inr (Or.inl rfl))) (by decide)
  ⟨lg, h1, h2, h3⟩


/-! ### Claims C4, C6, C5: the echo and the fatal calls -/

/-- A process that is alive after start-up and a run of calls without `Start` was
started successfully and still has the loggers assigned at start-up. -/
theorem started_run (E : Env) (T : LogLevel) (fileName : String) (M R : Int) (s : Proc)
    (calls : List Call) (hcalls : ∀ c ∈ calls, c.isStart = false)
    (h : (run E calls (doLogging E T fileName M R s)).exit = none) :
    (doLogging E T fileName M R s).exit = none ∧
    (∀ c ∈ calls, c.isFatal = false) ∧
    Runs (doLogging E T fileName M R s).Logger (run E calls (doLogging E T fileName M R s)) := by
  have h0 : (doLogging E T fileName M R s).exit = none := by
    cases hx : (doLogging E T fileName M R s).exit with
    | none => rfl
    | some code =>
      rw [run_of_exited E calls _ (by simp [hx]), hx] at h
      exact h
  obtain ⟨_, hwf, _⟩ := doLogging_alive E T fileName M R s h0
  obtain ⟨r1, r2⟩ := run_alive E _ hwf calls _ (Runs_self _ h0) hcalls
  exact ⟨h0, r1.mp h, r2 h⟩

theorem EchoesOnce_logCall (E : Env) (L : mlog) (lg : GoLogger) (msg tag echo : String)
    (s : Proc) (hs : Runs L s)
    (hfile : lg.out = Writer.fileHandle → L.LogFile.isSome = true) :
    EchoesOnce s ((Output E (some lg) msg s).andThen (fmtPrintln tag echo))
      (tag ++ " " ++ echo ++ "\n") := by
  obtain ⟨c1, c2⟩ := logCall_spec E L lg msg tag echo s hs hfile
  refine ⟨c1.1, lg.out.events (formatLine lg (E.header s.trace.length) msg),
    Writer_events_length lg.out _, ?_⟩
  rw [c2]
  simp [Println, String.append_assoc]

/-- Claim C4.  Start the package with level `T1` and, in a second run, with level
`T2`, on the same file configuration, and make the same calls (none of them `Start`)
in both.  If the first run is still alive, so is the second, and in either run each
of `Trace`, `Info`, `Warning` and `Error` returns after writing to the console, as
its last action and after at most one other event (the structured line), the echo
line made of the severity tag, a space, the formatted message and a newline.  The
echo line does not depend on the level. -/
theorem C4_echo_independent_of_threshold (E : Env) (T1 T2 : LogLevel) (fileName : String)
    (M R : Int) (s : Proc) (calls : List Call) (format : String) (a : List Value)
    (err : Value) (hcalls : ∀ c ∈ calls, c.isStart = false)
    (h1 : (run E calls (doLogging E T1 fileName M R s)).exit = none) :
    (run E calls (doLogging E T2 fileName M R s)).exit = none ∧
    ∀ T, T = T1 ∨ T = T2 →
      EchoesOnce (run E calls (doLogging E T fileName M R s))
        (Trace E format a (run E calls (doLogging E T fileName M R s)))
        (" - [TRACE]: " ++ " " ++ E.Sprintf format a ++ "\n") ∧
      EchoesOnce (run E calls (doLogging E T fileName M R s))
        (Info E format a (run E calls (doLogging E T fileName M R s)))
        (" - [INFO]: " ++ " " ++ E.Sprintf format a ++ "\n") ∧
      EchoesOnce (run E calls (doLogging E T fileName M R s))
        (Warning E format a (run E calls (doLogging E T fileName M R s)))
        (" - [WARNING]: " ++ " " ++ E.Sprintf format a ++ "\n") ∧
      EchoesOnce (run E calls (doLogging E T fileName M R s))
        (Error E err (run E calls (doLogging E T fileName M R s)))
        (" - [ERROR]: " ++ " " ++ E.Sprintf "%s" [err] ++ "\n") := by
  obtain ⟨a0, anf, _⟩ := started_run E T1 fileName M R s calls hcalls h1
  obtain ⟨_, _, _, _, _, hall⟩ := doLogging_alive E T1 fileName M R s a0
  have key : ∀ T, (run E calls (doLogging E T fileName M R s)).exit = none ∧
      (doLogging E T fileName M R s).Logger.WellFormed ∧
      Runs (doLogging E T fileName M R s).Logger
        (run E calls (doLogging E T fileName M R s)) := by
    intro T
    have b0 := (hall T).1
    obtain ⟨_, hwf, _⟩ := doLogging_alive E T fileName M R s b0
    obtain ⟨r1, r2⟩ := run_alive E _ hwf calls _ (Runs_self _ b0) hcalls
    exact ⟨r1.mpr anf, hwf, r2 (r1.mpr anf)⟩
  refine ⟨(key T2).1, ?_⟩
  intro T _
  obtain ⟨_, hwf, hr⟩ := key T
  obtain ⟨⟨lt, t1, t2⟩, ⟨li, i1, i2⟩, ⟨lw, w1, w2⟩, ⟨le, e1, e2⟩, _⟩ := WellFormed_get _ hwf
  have g := hr
  obtain ⟨_, g1, g2, g3, g4, _, _, _⟩ := g
  refine ⟨?_, ?_, ?_, ?_⟩
  · simp only [Trace, g1, t1]
    exact EchoesOnce_logCall E _ lt _ _ _ _ hr t2
  · simp only [Info, g2, i1]
    exact EchoesOnce_logCall E _ li _ _ _ _ hr i2
  · simp only [Warning, g3, w1]
    exact EchoesOnce_logCall E _ lw _ _ _ _ hr w2
  · simp only [Error, g4, e1]
    exact EchoesOnce_logCall E _ le _ _ _ _ hr e2

/-- Witness of C4: levels `LevelTrace` and `LevelError`, log file `app.log`, one
earlier `Info` call. -/
theorem C4_echo_independent_of_threshold_witness :
    (run goEnv [Call.Info "up" []] (doLogging goEnv LevelError "app.log" 5 3
      (Proc.init (freshWorld "app.log")))).exit = none ∧
    EchoesOnce
      (run goEnv [Call.Info "up" []] (doLogging goEnv LevelError "app.log" 5 3
        (Proc.init (freshWorld "app.log"))))
      (Trace goEnv "n=%d" [Value.int 3]
        (run goEnv [Call.Info "up" []] (doLogging goEnv LevelError "app.log" 5 3
          (Proc.init (freshWorld "app.log")))))
      (" - [TRACE]: " ++ " " ++ goEnv.Sprintf "n=%d" [Value.int 3] ++ "\n") :=
  have h := C4_echo_independent_of_threshold goEnv LevelTrace LevelError "app.log" 5 3
    (Proc.init (freshWorld "app.log")) [Call.Info "up" []] "n=%d" [Value.int 3]
    (Value.err "boom") (by decide) (by decide)
  ⟨h.1, (h.2 LevelError (Or.inr rfl)).1⟩


theorem errorHandle_of_level (T : LogLevel) (fileName : String)
    (hT : T = LevelTrace ∨ T = LevelInfo ∨ T = LevelWarn ∨ T = LevelError) :
    (if fileName ≠ "" then redirectToFile (levelSwitch T Handles.discard)
      else levelSwitch T Handles.discard).errorHandle
      = if fileName ≠ "" then Writer.fileHandle else Writer.Stderr := by
  by_cases hf : fileName = ""
  · rcases hT with rfl | rfl | rfl | rfl <;>
      simp [hf, levelSwitch, caseLevelTrace, caseLevelInfo, caseLevelWarn, caseLevelError,
        Handles.discard, LevelTrace, LevelInfo, LevelWarn, LevelError]
  · rcases hT with rfl | rfl | rfl | rfl <;>
      simp [hf, levelSwitch, caseLevelTrace, caseLevelInfo, caseLevelWarn, caseLevelError,
        Handles.discard, LevelTrace, LevelInfo, LevelWarn, LevelError, redirectToFile]

/-- Claim C6.  Start the package with one of the four levels and any file
configuration, make any calls other than `Start`, and let the process still be
alive.  Then the `Fatal` logger writes where the `Error` logger writes, which is the
file writer when a file name was given and stderr otherwise, never the discard sink;
a call of `Fatal` prints the echo, writes the structured line to that destination,
then calls `Sync` on the log file when there is one, then exits with code 255, in
this order and with nothing else; and whatever calls follow, nothing more is
executed. -/
theorem C6_fatal_writes_flushes_exits (E : Env) (T : LogLevel) (fileName : String)
    (M R : Int) (s : Proc) (calls more : List Call) (a : List Value)
    (hT : T = LevelTrace ∨ T = LevelInfo ∨ T = LevelWarn ∨ T = LevelError)
    (hcalls : ∀ c ∈ calls, c.isStart = false)
    (h1 : (run E calls (doLogging E T fileName M R s)).exit = none) :
    ∃ lg le,
      (run E calls (doLogging E T fileName M R s)).Logger.Fatal = some lg ∧
      (run E calls (doLogging E T fileName M R s)).Logger.Error = some le ∧
      lg.out = le.out ∧
      lg.out = (if fileName ≠ "" then Writer.fileHandle else Writer.Stderr) ∧
      lg.out ≠ Writer.Discard ∧
      (Fatal E a (run E calls (doLogging E T fileName M R s))).exit = some 255 ∧
      (∃ syncs : List Event,
        (Fatal E a (run E calls (doLogging E T fileName M R s))).trace
          = (run E calls (doLogging E T fileName M R s)).trace
            ++ [Event.stdout (Println [" - [FATAL]: ", E.Sprintf "%s" a])]
            ++ (if fileName ≠ "" then
                  [Event.fileWrite (toBytes (formatLine lg (E.header
                    ((run E calls (doLogging E T fileName M R s)).trace.length + 1))
                    (E.Sprint a)))]
                else
                  [Event.stderr (formatLine lg (E.header
                    ((run E calls (doLogging E T fileName M R s)).trace.length + 1))
                    (E.Sprint a))])
            ++ syncs ++ [Event.exit 255] ∧
        (fileName = "" → syncs = []) ∧
        (fileName ≠ "" → ∃ r, syncs = [Event.sync r])) ∧
      run E more (Fatal E a (run E calls (doLogging E T fileName M R s)))
        = Fatal E a (run E calls (doLogging E T fileName M R s)) := by
  obtain ⟨a0, _, hr⟩ := started_run E T fileName M R s calls hcalls h1
  obtain ⟨_, hwf, _, hfile, ⟨hs, hlog, hhs⟩, _⟩ := doLogging_alive E T fileName M R s a0
  have herr := errorHandle_of_level T fileName hT
  rw [← hhs] at herr
  have hF : (doLogging E T fileName M R s).Logger.Fatal
      = some { out := hs.errorHandle, pfx := " - [FATAL]: ", flag := DefaultFlags } := by
    rw [hlog]; rfl
  have hE : (doLogging E T fileName M R s).Logger.Error
      = some { out := hs.errorHandle, pfx := " - [ERROR]: ", flag := DefaultFlags } := by
    rw [hlog]; rfl
  have g := hr
  obtain ⟨_, _, _, _, g4, g5, _, _⟩ := g
  have hfl : hs.errorHandle = Writer.fileHandle →
      (doLogging E T fileName M R s).Logger.LogFile.isSome = true := by
    intro hx
    rw [herr] at hx
    by_cases hf : fileName = ""
    · simp [hf] at hx
    · exact hfile.mpr hf
  obtain ⟨f1, syncs, f2, f3, f4⟩ := fatal_spec E _
    { out := hs.errorHandle, pfx := " - [FATAL]: ", flag := DefaultFlags }
    (E.Sprintf "%s" a) (E.Sprint a) _ hr hF hfl
  refine ⟨_, _, g5.trans hF, g4.trans hE, rfl, herr, ?_, f1, ⟨syncs, ?_, ?_, ?_⟩, ?_⟩
  · rw [herr]; by_cases hf : fileName = "" <;> simp [hf]
  · unfold Fatal
    rw [f2]
    simp only [herr]
    by_cases hf : fileName = "" <;> simp [hf, Writer.events]
  · intro hf
    apply f3
    cases hx : (doLogging E T fileName M R s).Logger.LogFile.isSome with
    | false => rfl
    | true => exact absurd hf (hfile.mp hx)
  · intro hf
    exact f4 (hfile.mpr hf)
  · exact run_of_exited E more _ (by unfold Fatal; simp [f1])

/-- Witness of C6: level `LevelError`, log file `app.log`, a `Trace` call earlier and
an `Info` call that is never executed. -/
theorem C6_fatal_writes_flushes_exits_witness :
    (Fatal goEnv [Value.str "halt"]
      (run goEnv [Call.Trace "t" []] (doLogging goEnv LevelError "app.log" 5 3
        (Proc.init (freshWorld "app.log"))))).exit = some 255 ∧
    run goEnv [Call.Info "late" []]
      (Fatal goEnv [Value.str "halt"]
        (run goEnv [Call.Trace "t" []] (doLogging goEnv LevelError "app.log" 5 3
          (Proc.init (freshWorld "app.log")))))
      = Fatal goEnv [Value.str "halt"]
        (run goEnv [Call.Trace "t" []] (doLogging goEnv LevelError "app.log" 5 3
          (Proc.init (freshWorld "app.log")))) :=
  have ⟨_, _, _, _, _, _, _, h6, _, h8⟩ := C6_fatal_writes_flushes_exits goEnv LevelError
    "app.log" 5 3 (Proc.init (freshWorld "app.log")) [Call.Trace "t" []]
    [Call.Info "late" []] [Value.str "halt"] (Or.inr (Or.inr (Or.inr rfl)))
    (by decide) (by decide)
  ⟨h6, h8⟩

/-- Claim C5, at failing inputs, after `StartEx(LevelError, "", 5, 3)`.
`Fatalf("failed: %s", "disk")` writes the structured message `failed: disk` but
echoes only `disk`: the echo is formatted with `"%s"` in place of the format.
`Fatal("disk ", "full")` writes the structured message `disk full` but echoes
`disk ` followed by the report of an extra operand. -/
theorem C5_fatal_echo_differs_from_message :
    (Fatalf goEnv "failed: %s" [Value.str "disk"]
      (StartEx goEnv LevelError "" 5 3 (Proc.init (freshWorld "app.log")))).trace
      = [Event.stdout " - [FATAL]:  disk\n",
         Event.stderr " - [FATAL]: 2018/07/27 10:00:00 main.go:52: failed: disk\n",
         Event.exit 255] ∧
    (Fatal goEnv [Value.str "disk ", Value.str "full"]
      (StartEx goEnv LevelError "" 5 3 (Proc.init (freshWorld "app.log")))).trace
      = [Event.stdout " - [FATAL]:  disk %!(EXTRA string=full)\n",
         Event.stderr " - [FATAL]: 2018/07/27 10:00:00 main.go:52: disk full\n",
         Event.exit 255] := by
  constructor <;> decide

end Mlog
